import Mathlib

/-!
Verification of the `fe-fwk-book` hash router (`src/packages/runtime/src/router.js`)
and template compiler (`src/packages/compiler/src/compile.js`).

The router is embedded as a fuel-indexed step function over an explicit world
(browser hash, listener count, router fields), returning `none` when the fuel is
exhausted (the JS recursion diverging), `some (.error _)` when the JS code would
throw, and `some (.ok (world, events))` when the call resolves, where `events`
records the history writes, subscriber dispatches and console diagnostics in
program order.

The compiler is embedded as the same line-buffer / closer-stack / import-set
state machine the JS class maintains, with lines as character lists so the
string surgery (`slice(0, -2)`, `slice(1)`, the trailing-comma strip) is exact.
External collaborators (`makeRouteMatcher`, `splitAttributes`, `extractProps`,
`interpolateVariables`, `formatForDirective`, `addThisContext`,
`normalizeTagName`) are not under `src/`; they are kept abstract as function
parameters, with concrete spec-modelled instances where a claim needs them.
-/

namespace FwkRouter

/-- The JS values a route guard's promise can resolve with, as distinguished by
the checks in `#canChangeRoute` (router.js 350-375): `result === false` first,
then `typeof result.path === 'string'`.  Reading `.path` throws a `TypeError`
when `result` is `undefined` or `null`; on `true` (a boxed primitive) it yields
`undefined`, so the loop continues. -/
inductive GuardResult where
  | jsFalse
  | jsTrue
  | jsUndefined
  | jsNull
  | jsObj (path : Option String)
  deriving DecidableEq

/-- A route definition `\x7b path, component, redirect? \x7d` (components are
opaque; an id suffices). -/
structure Route where
  path : String
  component : Nat
  redirect : Option String := none
  deriving DecidableEq

/-- Modelled from the spec: `makeRouteMatcher` lives in `route-matchers.js`,
which is not under `src/`.  Per the spec a matcher is "compiled from a Route;
capable of testing whether a path matches, and if so extracting named
parameters and query parameters", so matching and extraction stay abstract as
function fields attached to the matcher's `route`. -/
structure Matcher where
  checkMatch : String → Bool
  route : Route
  extractParams : String → List (String × String)
  extractQuery : String → List (String × String)

/-- `matcher.isRedirect`: per the spec, `redirect` "marks a redirect-only
route", so a matcher is a redirect matcher exactly when its route carries a
redirect target. -/
def Matcher.isRedirect (m : Matcher) : Bool := m.route.redirect.isSome

/-- A guard function over `(fromPath, toPath)`; `fromPath` is
`matchedRoute?.path` and hence possibly `undefined` (`none`). -/
abbrev Guard := Option String → Option String → GuardResult

/-- The three-way outcome `#canChangeRoute` encodes in its
`\x7b shouldNavigate, shouldRedirect, redirectPath \x7d` result object. -/
inductive CanChange where
  | allow
  | block
  | redirect (path : String)
  deriving DecidableEq

/-- `#canChangeRoute` (router.js 350-375).  The loop awaits each guard in
registration order; `result === false` blocks, a `result.path` of string type
redirects, and reading `.path` off `undefined`/`null` throws (modelled as
`.error ()`). -/
def canChangeRoute : List Guard → Option String → Option String → Except Unit CanChange
  | [], _, _ => .ok .allow
  | g :: gs, f, t =>
    match g f t with
    | .jsFalse => .ok .block
    | .jsUndefined => .error ()
    | .jsNull => .error ()
    | .jsObj (some p) => .ok (.redirect p)
    | .jsTrue => canChangeRoute gs f t
    | .jsObj none => canChangeRoute gs f t

/-- How many guards the `for (const guard of this.#guards)` loop in
`#canChangeRoute` invokes on the same run (each iteration calls exactly one
guard before deciding whether to continue). -/
def guardsInvoked : List Guard → Option String → Option String → Nat
  | [], _, _ => 0
  | g :: gs, f, t =>
    match g f t with
    | .jsFalse => 1
    | .jsUndefined => 1
    | .jsNull => 1
    | .jsObj (some _) => 1
    | .jsTrue => guardsInvoked gs f t + 1
    | .jsObj none => guardsInvoked gs f t + 1

/-- A guard result the chain treats as "allow" and steps past. -/
def isAllow (r : GuardResult) : Prop := r = .jsTrue ∨ r = .jsObj none

/-- The browser-visible side effects of a `navigateTo` run, in program order:
`window.history.pushState`, the `ROUTER_EVENT` dispatch to subscribers, and the
`console.warn` diagnostic. -/
inductive Event where
  | pushState (path : String)
  | notify (src : Option Route) (dst : Route)
  | warn (msg : String)
  deriving DecidableEq

/-- The pieces of the host environment the router touches: the location hash
(including the leading `#`) and the number of registered `popstate`
listeners. -/
structure Env where
  hash : String
  listeners : Nat
  deriving DecidableEq

/-- The `HashRouter` instance's own fields. -/
structure RouterState where
  matchers : List Matcher
  guards : List Guard
  matchedRoute : Option Route
  params : List (String × String)
  query : List (String × String)
  isInitialized : Bool

/-- Router plus host environment. -/
structure World where
  env : Env
  router : RouterState

/-- `navigateTo(path)` (router.js 221-257), indexed by recursion fuel.
`none` means the fuel ran out (the JS call never resolves); `.error` means the
JS code threw; `.ok` carries the final world and the emitted events.
The branches mirror the source: no matching matcher warns and clears state;
`matcher.isRedirect` recurses on `matcher.route.redirect`; otherwise the guard
chain runs over `(from?.path, to?.path)` and, on approval, state is updated,
the hash is pushed, and subscribers are notified - in that order. -/
def navigateTo : Nat → World → String → Option (Except Unit (World × List Event))
  | 0, _, _ => none
  | fuel + 1, w, path =>
    match w.router.matchers.find? (fun m => m.checkMatch path) with
    | none =>
      some (.ok
        ({ w with router :=
            { w.router with matchedRoute := none, params := [], query := [] } },
          [.warn ("[Router] No route matches path \"" ++ path ++ "\"")]))
    | some m =>
      match m.route.redirect with
      | some target => navigateTo fuel w target
      | none =>
        match canChangeRoute w.router.guards
            (w.router.matchedRoute.map Route.path) (some m.route.path) with
        | .error e => some (.error e)
        | .ok .block => some (.ok (w, []))
        | .ok (.redirect p) => navigateTo fuel w p
        | .ok .allow =>
          some (.ok
            ({ env := { w.env with hash := "#" ++ path },
               router := { w.router with
                 matchedRoute := some m.route,
                 params := m.extractParams path,
                 query := m.extractQuery path } },
             [.pushState path, .notify w.router.matchedRoute m.route]))

/-- `get #currentRouteHash` (router.js 154-162): the hash without the leading
`#`, defaulting to `/` when empty. -/
def currentRouteHash (env : Env) : String :=
  if env.hash = "" then "/" else env.hash.drop 1

/-- The `window.history.replaceState(\x7b\x7d, '', '#/')` fix-up `init` applies
when the location has no hash. -/
def ensureHash (e : Env) : Env := if e.hash = "" then { e with hash := "#/" } else e

/-- The environment after `init`'s hash fix-up and
`window.addEventListener('popstate', ...)`. -/
def listenedEnv (e : Env) : Env :=
  { hash := (ensureHash e).hash, listeners := (ensureHash e).listeners + 1 }

/-- `init()` (router.js 176-189): a no-op when already initialized; otherwise
ensure a hash is present, attach the `popstate` listener, match the current
route, and only then flip `#isInitialized`. -/
def init (fuel : Nat) (w : World) : Option (Except Unit World) :=
  if w.router.isInitialized then some (.ok w)
  else
    match navigateTo fuel { env := listenedEnv w.env, router := w.router }
        (currentRouteHash (listenedEnv w.env)) with
    | none => none
    | some (.error e) => some (.error e)
    | some (.ok (w3, _)) =>
      some (.ok { w3 with router := { w3.router with isInitialized := true } })

/-- The single path the `navigateTo` recursion continues with, if any: the
redirect target of a matched redirect-only route, or a guard's redirect path. -/
def redirNext (w : World) (path : String) : Option String :=
  match w.router.matchers.find? (fun m => m.checkMatch path) with
  | none => none
  | some m =>
    match m.route.redirect with
    | some target => some target
    | none =>
      match canChangeRoute w.router.guards
          (w.router.matchedRoute.map Route.path) (some m.route.path) with
      | .error _ => none
      | .ok .allow => none
      | .ok .block => none
      | .ok (.redirect p) => some p

/-- The chain of candidate paths reaches a non-recursing one within `n`
redirect steps. -/
def chainTerminates : Nat → World → String → Prop
  | 0, w, p => redirNext w p = none
  | n + 1, w, p =>
    redirNext w p = none ∨ ∃ q, redirNext w p = some q ∧ chainTerminates n w q

/-- Route `/one`, component id 1. -/
def oneRoute : Route := { path := "/one", component := 1 }

def oneMatcher : Matcher :=
  { checkMatch := fun p => p == "/one", route := oneRoute,
    extractParams := fun _ => [], extractQuery := fun _ => [] }

/-- Route `/two`, component id 2. -/
def twoRoute : Route := { path := "/two", component := 2 }

def twoMatcher : Matcher :=
  { checkMatch := fun p => p == "/two", route := twoRoute,
    extractParams := fun _ => [], extractQuery := fun _ => [] }

/-- A router over `[/one]` with the given guards, already initialized. -/
def baseRouter (gs : List Guard) : RouterState :=
  { matchers := [oneMatcher], guards := gs, matchedRoute := none,
    params := [], query := [], isInitialized := true }

def falseGuardWorld : World :=
  { env := { hash := "#/", listeners := 1 },
    router := baseRouter [fun _ _ => .jsFalse] }

/-- A router whose single guard resolves to `undefined` - the case the
`RouteGuard` doc comment (router.js 27-28) promises is treated as `true`. -/
def undefGuardWorld : World :=
  { env := { hash := "#/", listeners := 1 },
    router := baseRouter [fun _ _ => .jsUndefined] }

def trueGuardWorld : World :=
  { env := { hash := "#/", listeners := 1 },
    router := baseRouter [fun _ _ => .jsTrue] }

/-- The world `trueGuardWorld` reaches after committing `/one`. -/
def trueGuardCommitted : World :=
  { env := { hash := "#/one", listeners := 1 },
    router := { matchers := [oneMatcher], guards := [fun _ _ => .jsTrue],
                matchedRoute := some oneRoute, params := [], query := [],
                isInitialized := true } }

/-- A guard that redirects every navigation to `/one` and allows `/one`. -/
def redirectGuard : Guard :=
  fun _ t => if t == some "/one" then .jsTrue else .jsObj (some "/one")

def redirectGuardWorld : World :=
  { env := { hash := "#/", listeners := 1 },
    router := { matchers := [oneMatcher, twoMatcher], guards := [redirectGuard],
                matchedRoute := none, params := [], query := [],
                isInitialized := true } }

/-- Route `/`, component id 0. -/
def homeRoute : Route := { path := "/", component := 0 }

def homeMatcher : Matcher :=
  { checkMatch := fun p => p == "/", route := homeRoute,
    extractParams := fun _ => [], extractQuery := fun _ => [] }

/-- A never-initialized router over `[/]` in a hashless location. -/
def freshWorld : World :=
  { env := { hash := "", listeners := 0 },
    router := { matchers := [homeMatcher], guards := [], matchedRoute := none,
                params := [], query := [], isInitialized := false } }

/-- The world `freshWorld` reaches after its first `init`. -/
def initedWorld : World :=
  { env := { hash := "#/", listeners := 1 },
    router := { matchers := [homeMatcher], guards := [], matchedRoute := some homeRoute,
                params := [], query := [], isInitialized := true } }

/-- A redirect-only route whose target matches itself again. -/
def loopRoute : Route := { path := "/loop", component := 9, redirect := some "/loop" }

def loopMatcher : Matcher :=
  { checkMatch := fun p => p == "/loop", route := loopRoute,
    extractParams := fun _ => [], extractQuery := fun _ => [] }

/-- A router whose first matcher for `/loop` is a redirect-only route
redirecting to `/loop` itself. -/
def loopWorld : World :=
  { env := { hash := "#/loop", listeners := 1 },
    router := { matchers := [loopMatcher], guards := [], matchedRoute := none,
                params := [], query := [], isInitialized := true } }

end FwkRouter

namespace FwkCompiler

/-- A program-text line, kept as its character list so the JS string surgery
(`slice(0, -2)`, `slice(1)`, `slice(0, -1)`) is exact. -/
abbrev Line := List Char

/-- The characters of a string literal. -/
def str (s : String) : Line := s.toList

/-- The whitespace class of the JS regexes used in `#addLineFromStack`
(the lines only ever contain ASCII whitespace). -/
def isJsSpace (c : Char) : Bool :=
  c == ' ' || c == '\t' || c == '\n' || c == '\r' || c == '\x0b' || c == '\x0c'

/-- The closing tokens of the `/^\s*[\)\]:]/` regex. -/
def isClosing (c : Char) : Bool := c == ')' || c == ']' || c == ':'

/-- `/,\s*$/.test line`: the line ends in a comma followed only by
whitespace. -/
def endsCommaWs (l : Line) : Bool :=
  match l.reverse.dropWhile isJsSpace with
  | [] => false
  | c :: _ => c == ','

/-- `/^\s*[\)\]:]/.test line`: the line starts, after whitespace, with a
closing token. -/
def startsWsClosing (l : Line) : Bool :=
  match l.dropWhile isJsSpace with
  | [] => false
  | c :: _ => isClosing c

/-- `lines[lines.length - 1]` (the buffer is never empty in any run). -/
def lastLine (l : List Line) : Line := l.getLastD []

/-- In-place update of `lines[lines.length - 1]`. -/
def modifyLast (f : Line → Line) : List Line → List Line
  | [] => []
  | [a] => [f a]
  | a :: b :: rest => a :: modifyLast f (b :: rest)

/-- In-place update of `stack[0]`. -/
def modifyHead (f : Line → Line) : List Line → List Line
  | [] => []
  | a :: rest => f a :: rest

/-- `Set.add` on the import set, kept as an insertion-ordered list. -/
def addImport (l : List String) (s : String) : List String :=
  if s ∈ l then l else l ++ [s]

/-- The `TemplateCompiler`'s mutable fields: the emission buffer `#lines`, the
pending-closer stack `#stack`, and the import set `#imports`. -/
structure CState where
  lines : List Line
  stack : List Line
  imports : List String

/-- The result of `splitAttributes` (attributes.js, not under `src/`): the four
buckets `\x7b attributes, bindings, events, directives \x7d`; `directives` is
keyed by directive name (`for` / `show`). -/
structure SplitAttrs where
  attrs : List (Line × Line)
  bindings : List (Line × Line)
  events : List (Line × Line)
  directives : List (Line × Line)

/-- The external collaborators `compile.js` imports; none of them is under
`src/`, so they are abstract function parameters of the embedding. -/
structure Helpers where
  normalizeTagName : Line → Line
  splitAttributes : List (Line × Line) → SplitAttrs
  extractProps : List (Line × Line) → List (Line × Line) → List (Line × Line) → Line
  interpolateVariables : Line → Line
  formatForDirective : Line → Line × Line
  addThisContext : Line → Line

mutual
/-- The parsed node forest `compile` walks.  `element` carries `rawTagName`,
`attributes` and `childNodes`; `text` carries `rawText`; `other` is any
node type `#addNode`'s switch ignores.  The child list is a mutual inductive
so the walk is plainly structural. -/
inductive PNode : Type where
  | element : Line → List (Line × Line) → PNodeList → PNode
  | text : Line → PNode
  | other : PNode

inductive PNodeList : Type where
  | nil : PNodeList
  | cons : PNode → PNodeList → PNodeList
end

/-- `childNodes.length`. -/
def lenPNL : PNodeList → Nat
  | .nil => 0
  | .cons _ t => lenPNL t + 1

/-- One step of `#addLineFromStack` (compile.js 130-142) with the shifted
entry `e` and remaining stack `rest` made explicit: strip the previous line's
trailing character when it ends in a comma (after optional whitespace) and the
appended line starts with a closing token, then append. -/
def appendClose (st : CState) (e : Line) (rest : List Line) : CState :=
  { lines :=
      (if endsCommaWs (lastLine st.lines) && startsWsClosing e then
        modifyLast List.dropLast st.lines
      else st.lines) ++ [e],
    stack := rest,
    imports := st.imports }

/-- `#addLineFromStack` itself (a shift on the empty stack never happens in a
run and is modelled as a no-op). -/
def addLineFromStack (st : CState) : CState :=
  match st.stack with
  | [] => st
  | e :: rest => appendClose st e rest

/-- `while (closingsCount--) this.#addLineFromStack()`. -/
def popClosers : Nat → CState → CState
  | 0, st => st
  | n + 1, st => popClosers n (addLineFromStack st)

/-- `.trim()` on a raw text node. -/
def trimLine (l : Line) : Line :=
  ((l.dropWhile isJsSpace).reverse.dropWhile isJsSpace).reverse

/-- `#addText` (compile.js 120-128): trim; if non-empty, emit
`hString(<interpolated>),` and add the `hString` import. -/
def addText (hs : Helpers) (st : CState) (rawText : Line) : CState :=
  let text := trimLine rawText
  if text = [] then st
  else
    { lines := st.lines ++ [str "hString(" ++ hs.interpolateVariables text ++ str "),"],
      stack := st.stack,
      imports := addImport st.imports "hString" }

/-- The part of `#addElement` (compile.js 75-118) before the recursion into
the children, returning the updated state and `closingsCount`:
the `for` branch rewrites the previous line (`slice(0, -2)`) and the stack top
(`slice(1)`) before pushing the loop opener and its closer; the `show` branch
pushes the conditional opener and `: null`; the element-call opener
`h(<tag>, <props>, [` is pushed last together with its closer `]),`. -/
def addElementOpen (hs : Helpers) (st : CState) (rawTagName : Line)
    (attributes : List (Line × Line)) : CState × Nat :=
  let tag := hs.normalizeTagName rawTagName
  let sp := hs.splitAttributes attributes
  let props := hs.extractProps sp.attrs sp.bindings sp.events
  let stC1 : CState × Nat :=
    match sp.directives.lookup (str "for") with
    | some forExpr =>
      let fd := hs.formatForDirective forExpr
      ({ lines := modifyLast (fun l => l.dropLast.dropLast) st.lines ++ [fd.1],
         stack := fd.2 :: modifyHead (List.drop 1) st.stack,
         imports := st.imports }, 2)
    | none => (st, 1)
  let stC2 : CState × Nat :=
    match sp.directives.lookup (str "show") with
    | some showExpr =>
      ({ lines := stC1.1.lines ++ [hs.addThisContext showExpr ++ str " ?"],
         stack := str ": null" :: stC1.1.stack,
         imports := stC1.1.imports }, stC1.2 + 1)
    | none => stC1
  ({ lines := stC2.1.lines ++ [str "h(" ++ tag ++ str ", " ++ props ++ str ", ["],
     stack := str "])," :: stC2.1.stack,
     imports := addImport stC2.1.imports "h" }, stC2.2)

mutual
/-- `#addNode` / `#addElement`'s walk: an element opens (`addElementOpen`),
recurses into its children, then pops its `closingsCount` closers; text nodes
go through `#addText`; all other node types are ignored. -/
def addNode (hs : Helpers) : PNode → CState → CState
  | .element t a cs, st =>
    let opened := addElementOpen hs st t a
    popClosers opened.2 (addNodes hs cs opened.1)
  | .text r, st => addText hs st r
  | .other, st => st

def addNodes (hs : Helpers) : PNodeList → CState → CState
  | .nil, st => st
  | .cons n ns, st => addNodes hs ns (addNode hs n st)
end

/-- `#reset()`: the buffer starts as the function header and `return (`, with
their closers pre-pushed. -/
def initialState : CState :=
  { lines := [str "function render() \x7b", str "return ("],
    stack := [str ")", str "\x7d"],
    imports := [] }

/-- The final `while (this.#stack.length) this.#addLineFromStack()` drain:
each iteration shifts exactly one entry, so the loop runs once per pending
closer. -/
def drain (st : CState) : CState := popClosers st.stack.length st

/-- `compile(template)` from the parsed forest on: wrap more than one
top-level node in `h(Fragment, \x7b\x7d, [` (adding the `hFragment` import and
pushing `])`), walk the nodes, then drain the closer stack.  Normalization and
parsing happen before this point in external code. -/
def compile (hs : Helpers) (childNodes : PNodeList) : CState :=
  let st := initialState
  let st1 :=
    if 1 < lenPNL childNodes then
      { lines := st.lines ++ [str "h(Fragment, \x7b\x7d, ["],
        stack := str "])" :: st.stack,
        imports := addImport st.imports "hFragment" }
    else st
  drain (addNodes hs childNodes st1)

/-- `this.#lines.join(' ')`. -/
def codeOf (st : CState) : Line := List.intercalate (str " ") st.lines

/-- `slice(0, -2)`: drop the last two characters. -/
def dropLast2 (l : Line) : Line := l.dropLast.dropLast

/-- A stripped line stays strippable: if the line ends in a comma (after
whitespace), dropping its final character removes that comma-ending. -/
def cleanEndB (l : Line) : Bool := !(endsCommaWs l && endsCommaWs l.dropLast)

/-- Every suffix of the line satisfies `cleanEndB` - the robustness a closer
needs because `#addElement`'s `for` rewrite drops leading characters off the
stack top before the closer is appended and possibly stripped. -/
def allSuffixClean : Line → Bool
  | [] => true
  | c :: t => cleanEndB (c :: t) && allSuffixClean t

/-- No adjacent buffer lines where the first ends in a comma (after optional
whitespace) and the second starts with a closing token. -/
def pairsOKb : List Line → Bool
  | [] => true
  | [_] => true
  | a :: b :: rest => !(endsCommaWs a && startsWsClosing b) && pairsOKb (b :: rest)

/-- Scanning helper: the text continues with optional whitespace and then a
closing token. -/
def seamAfterComma : Line → Bool
  | [] => false
  | c :: rest => if isClosing c then true else if isJsSpace c then seamAfterComma rest else false

/-- The text contains a comma followed (only by whitespace) by a closing
token - the pattern the spec says the emitted program never contains. -/
def hasSeam : Line → Bool
  | [] => false
  | c :: rest => (c == ',' && seamAfterComma rest) || hasSeam rest

/-- The element carries a `for` directive (`'for' in directives`). -/
def hasForDirective (hs : Helpers) (a : List (Line × Line)) : Bool :=
  ((hs.splitAttributes a).directives.lookup (str "for")).isSome

/-- The node is an element whose attribute split yields a `for` directive -
the only case in which `#addElement` rewrites its caller's previous line and
stack top. -/
def forTop (hs : Helpers) : PNode → Bool
  | .element _ a _ => hasForDirective hs a
  | _ => false

/-- No node at the top of the list carries a `for` directive. -/
def noTopFor (hs : Helpers) : PNodeList → Prop
  | .nil => True
  | .cons n ns => forTop hs n = false ∧ noTopFor hs ns

/-- The contract the external directive helpers satisfy for the emitted
program text to stay well-separated: loop openers and conditional openers do
not start with a closing token, and loop closers (and every suffix the `for`
rewrite can leave of them) carry at most a single trailing comma. -/
def HelperContract (hs : Helpers) : Prop :=
  (∀ x, startsWsClosing (hs.formatForDirective x).1 = false) ∧
  (∀ x, allSuffixClean (hs.formatForDirective x).2 = true) ∧
  (∀ x, startsWsClosing (hs.addThisContext x ++ str " ?") = false)

/-- The state invariant behind the trailing-separator cleanup: no adjacent
comma-ending/closing-starting buffer lines, the last buffer line loses its
comma-ending on a single-character strip, and every pending closer (and each
of its suffixes, which the `for` rewrite can expose) does too. -/
def InvC7 (st : CState) : Prop :=
  pairsOKb st.lines = true ∧ cleanEndB (lastLine st.lines) = true ∧
  ∀ x ∈ st.stack, allSuffixClean x = true

/-- Split an iteration expression at the first ` in `. -/
def splitOnIn : Line → Line × Line
  | [] => ([], [])
  | c :: rest =>
    if (c :: rest).take 4 = str " in " then ([], (c :: rest).drop 4)
    else
      let p := splitOnIn rest
      (c :: p.1, p.2)

/-- Modelled from the spec: `splitAttributes` (attributes.js, not under
`src/`) splits the attribute list into four buckets; only the `directives`
bucket (the recognized names `for` and `show`) matters here, the rest is kept
as the plain-attribute bucket. -/
def specSplitAttributes (a : List (Line × Line)) : SplitAttrs :=
  { attrs := a.filter (fun p => !(p.1 == str "for" || p.1 == str "show")),
    bindings := [],
    events := [],
    directives := a.filter (fun p => p.1 == str "for" || p.1 == str "show") }

/-- Modelled from the spec: `formatForDirective` (for-directive.js, not under
`src/`) turns `item in collection` into a map-expression opener using the
parts verbatim, with a closing that closes the map call and separates it from
a following sibling. -/
def specFormatForDirective (e : Line) : Line × Line :=
  let p := splitOnIn e
  (p.2 ++ str ".map((" ++ trimLine p.1 ++ str ") =>", str "),")

/-- Modelled from the spec: `addThisContext` (context.js, not under `src/`)
qualifies the expression with a `this` context. -/
def specAddThisContext (e : Line) : Line := str "this." ++ e

/-- The spec-modelled instantiation of the external helper functions. -/
def specHelpers : Helpers :=
  { normalizeTagName := fun t => t,
    splitAttributes := specSplitAttributes,
    extractProps := fun _ _ _ => str "\x7b\x7d",
    interpolateVariables := fun t => t,
    formatForDirective := specFormatForDirective,
    addThisContext := specAddThisContext }

/-- The state right after `compile` has pushed the fragment wrapper for a
multi-node forest. -/
def wrapState : CState :=
  { lines := initialState.lines ++ [str "h(Fragment, \x7b\x7d, ["],
    stack := str "])" :: initialState.stack,
    imports := addImport initialState.imports "hFragment" }

/-- A helper instantiation with constant-prefixed directive output, satisfying
`HelperContract`. -/
def wHelpers : Helpers :=
  { normalizeTagName := fun t => t,
    splitAttributes := specSplitAttributes,
    extractProps := fun _ _ _ => str "\x7b\x7d",
    interpolateVariables := fun t => t,
    formatForDirective := fun e => (str "(" ++ e ++ str ").map((x) =>", str "),"),
    addThisContext := fun e => str "this." ++ e }

/-- Two sibling elements that both carry a `for` directive. -/
def twoForSiblings : PNodeList :=
  .cons (.element (str "div") [(str "for", str "x in xs")] .nil)
    (.cons (.element (str "div") [(str "for", str "y in ys")] .nil) .nil)

/-- One element carrying both directives, with a text child. -/
def forShowElement : PNode :=
  .element (str "li") [(str "for", str "item in items"), (str "show", str "open")]
    (.cons (.text (str "x")) .nil)

/-- A two-node forest of plain text nodes. -/
def twoTexts : PNodeList := .cons (.text (str "a")) (.cons (.text (str "b")) .nil)

end FwkCompiler

namespace FwkRouter

/-- If every guard before position `i` allows and the guard at `i` returns
exactly `false`, the chain blocks after invoking exactly `i + 1` guards. -/
theorem canChangeRoute_first_false :
    ∀ (gs : List Guard) (f t : Option String) (i : Nat) (hi : i < gs.length),
    gs.get ⟨i, hi⟩ f t = .jsFalse →
    (∀ j, (hj : j < i) → isAllow (gs.get ⟨j, Nat.lt_trans hj hi⟩ f t)) →
    canChangeRoute gs f t = .ok .block ∧ guardsInvoked gs f t = i + 1 := by
  intro gs
  induction gs with
  | nil => intro f t i hi _ _; exact absurd hi (by simp)
  | cons g gs ih =>
    intro f t i hi hfalse hallow
    match i with
    | 0 =>
      have hg : g f t = .jsFalse := hfalse
      simp [canChangeRoute, guardsInvoked, hg]
    | Nat.succ j =>
      have h0 : isAllow (g f t) := hallow 0 (Nat.succ_pos j)
      have hj : j < gs.length := Nat.lt_of_succ_lt_succ hi
      have hrec := ih f t j hj hfalse
        (fun k hk => hallow (k + 1) (Nat.succ_lt_succ hk))
      rcases h0 with h0 | h0 <;>
        simp [canChangeRoute, guardsInvoked, h0, hrec.1, hrec.2]

/-- C1: if during `navigateTo(path)` (matched, non-redirect route) the first
guard whose result is not an allow returns exactly `false`, the navigation is
aborted with the world unchanged (so `matchedRoute`, `params`, `query` and the
hash are untouched), no event is emitted (no history write, no subscriber
notification), and the guards after it are never invoked. -/
theorem c1_guard_false_aborts (fuel : Nat) (w : World) (path : String)
    (m : Matcher) (i : Nat) (hi : i < w.router.guards.length)
    (hfind : w.router.matchers.find? (fun m => m.checkMatch path) = some m)
    (hnr : m.route.redirect = none)
    (hfalse : w.router.guards.get ⟨i, hi⟩
      (w.router.matchedRoute.map Route.path) (some m.route.path) = .jsFalse)
    (hallow : ∀ j, (hj : j < i) → isAllow (w.router.guards.get
      ⟨j, Nat.lt_trans hj hi⟩
      (w.router.matchedRoute.map Route.path) (some m.route.path))) :
    navigateTo (fuel + 1) w path = some (.ok (w, [])) ∧
    guardsInvoked w.router.guards
      (w.router.matchedRoute.map Route.path) (some m.route.path) = i + 1 := by
  have h := canChangeRoute_first_false w.router.guards
    (w.router.matchedRoute.map Route.path) (some m.route.path) i hi hfalse hallow
  refine ⟨?_, h.2⟩
  simp [navigateTo, hfind, hnr, h.1]

theorem c1_guard_false_aborts_witness :
    navigateTo 1 falseGuardWorld "/one" = some (.ok (falseGuardWorld, [])) ∧
    guardsInvoked falseGuardWorld.router.guards
      (falseGuardWorld.router.matchedRoute.map Route.path)
      (some oneRoute.path) = 1 :=
  c1_guard_false_aborts 0 falseGuardWorld "/one" oneMatcher 0 (by decide)
    rfl rfl rfl (fun j hj => absurd hj (Nat.not_lt_zero j))

/-- C2: the `RouteGuard` doc comment (router.js 27-28) and the spec say a
guard resolving to `undefined` is treated as `true` (allow), but
`#canChangeRoute` evaluates `result.path` on it, which throws a `TypeError`:
with a single guard resolving to `undefined`, `navigateTo('/one')` rejects
instead of committing, while the same navigation with a guard resolving to
`true` commits normally (state update, then push, then notify). -/
theorem c2_undefined_guard_throws :
    navigateTo 1 undefGuardWorld "/one" = some (.error ()) ∧
    navigateTo 1 trueGuardWorld "/one" =
      some (.ok (trueGuardCommitted, [.pushState "/one", .notify none oneRoute])) :=
  ⟨rfl, rfl⟩

/-- C3: when a guard result carries a redirect path, the candidate navigation
is abandoned with nothing committed or emitted for it, and `navigateTo`
recurses on the redirect target; when that recursed navigation commits, the
run as a whole produces exactly one history write and exactly one subscriber
notification, both for the final target, whose route becomes `matchedRoute`. -/
theorem c3_guard_redirect_commits_once (fuel : Nat) (w : World)
    (path rp : String) (m m2 : Matcher)
    (hfind : w.router.matchers.find? (fun m => m.checkMatch path) = some m)
    (hnr : m.route.redirect = none)
    (hred : canChangeRoute w.router.guards
      (w.router.matchedRoute.map Route.path) (some m.route.path) =
      .ok (.redirect rp))
    (hfind2 : w.router.matchers.find? (fun m => m.checkMatch rp) = some m2)
    (hnr2 : m2.route.redirect = none)
    (hok : canChangeRoute w.router.guards
      (w.router.matchedRoute.map Route.path) (some m2.route.path) = .ok .allow) :
    navigateTo (fuel + 2) w path =
      some (.ok
        ({ env := { w.env with hash := "#" ++ rp },
           router := { w.router with
             matchedRoute := some m2.route,
             params := m2.extractParams rp,
             query := m2.extractQuery rp } },
         [.pushState rp, .notify w.router.matchedRoute m2.route])) := by
  have hstep : navigateTo (fuel + 2) w path = navigateTo (fuel + 1) w rp := by
    simp [navigateTo, hfind, hnr, hred]
  rw [hstep]
  simp [navigateTo, hfind2, hnr2, hok]

theorem c3_guard_redirect_commits_once_witness :
    navigateTo 2 redirectGuardWorld "/two" =
      some (.ok
        ({ env := { hash := "#/one", listeners := 1 },
           router := { redirectGuardWorld.router with
             matchedRoute := some oneRoute, params := [], query := [] } },
         [.pushState "/one", .notify none oneRoute])) :=
  c3_guard_redirect_commits_once 0 redirectGuardWorld "/two" "/one"
    twoMatcher oneMatcher rfl rfl rfl rfl rfl rfl

/-- C4: whatever a resolving `navigateTo` run does, its event trace is either
empty (guard-blocked), a single diagnostic (no route matched), or exactly a
history write followed by the subscriber notification - so subscribers are
notified strictly after the hash push, and only on runs that matched a
non-redirect route and passed the whole guard chain. -/
theorem c4_notify_after_push_only_committed :
    ∀ (fuel : Nat) (w : World) (path : String) (w2 : World) (tr : List Event),
    navigateTo fuel w path = some (.ok (w2, tr)) →
    tr = [] ∨ (∃ msg, tr = [.warn msg]) ∨
      ∃ p src dst, tr = [.pushState p, .notify src dst] := by
  intro fuel
  induction fuel with
  | zero => intro w path w2 tr h; exact absurd h (by simp [navigateTo])
  | succ n ih =>
    intro w path w2 tr h
    simp only [navigateTo] at h
    split at h
    · simp only [Option.some.injEq, Except.ok.injEq, Prod.mk.injEq] at h
      exact Or.inr (Or.inl ⟨_, h.2.symm⟩)
    · split at h
      · exact ih _ _ _ _ h
      · split at h
        · simp at h
        · simp only [Option.some.injEq, Except.ok.injEq, Prod.mk.injEq] at h
          exact Or.inl h.2.symm
        · exact ih _ _ _ _ h
        · simp only [Option.some.injEq, Except.ok.injEq, Prod.mk.injEq] at h
          exact Or.inr (Or.inr ⟨_, _, _, h.2.symm⟩)

theorem c4_notify_after_push_only_committed_witness :
    ([.pushState "/one", .notify none oneRoute] : List Event) = [] ∨
    (∃ msg, ([.pushState "/one", .notify none oneRoute] : List Event) = [.warn msg]) ∨
    (∃ p src dst, ([.pushState "/one", .notify none oneRoute] : List Event) =
      [.pushState p, .notify src dst]) :=
  c4_notify_after_push_only_committed 1 trueGuardWorld "/one" trueGuardCommitted
    [.pushState "/one", .notify none oneRoute] rfl

/-- C5: when no matcher matches the path, `navigateTo` resolves (it does not
throw), clears `matchedRoute`, `params` and `query`, emits only the
`console.warn` diagnostic, and neither writes the hash nor notifies any
subscriber. -/
theorem c5_no_match_clears_and_warns (fuel : Nat) (w : World) (path : String)
    (hfind : w.router.matchers.find? (fun m => m.checkMatch path) = none) :
    navigateTo (fuel + 1) w path =
      some (.ok
        ({ w with router :=
            { w.router with matchedRoute := none, params := [], query := [] } },
         [.warn ("[Router] No route matches path \"" ++ path ++ "\"")])) := by
  simp [navigateTo, hfind]

theorem c5_no_match_clears_and_warns_witness :
    navigateTo 1 falseGuardWorld "/nope" =
      some (.ok (falseGuardWorld,
        [.warn ("[Router] No route matches path \"/nope\"")])) :=
  c5_no_match_clears_and_warns 0 falseGuardWorld "/nope" rfl

/-- A resolving `navigateTo` never touches the listener count. -/
theorem navigateTo_preserves_listeners :
    ∀ (fuel : Nat) (w : World) (path : String) (w2 : World) (tr : List Event),
    navigateTo fuel w path = some (.ok (w2, tr)) →
    w2.env.listeners = w.env.listeners := by
  intro fuel
  induction fuel with
  | zero => intro w path w2 tr h; exact absurd h (by simp [navigateTo])
  | succ n ih =>
    intro w path w2 tr h
    simp only [navigateTo] at h
    split at h
    · simp only [Option.some.injEq, Except.ok.injEq, Prod.mk.injEq] at h
      rw [← h.1]
    · split at h
      · exact ih _ _ _ _ h
      · split at h
        · simp at h
        · simp only [Option.some.injEq, Except.ok.injEq, Prod.mk.injEq] at h
          rw [← h.1]
        · exact ih _ _ _ _ h
        · simp only [Option.some.injEq, Except.ok.injEq, Prod.mk.injEq] at h
          rw [← h.1]

/-- C9: `init()` is idempotent.  If a first `init` on an uninitialized router
with no listener attached resolves to `w1`, then `w1` has exactly one
navigation listener registered, and a second `init` is a no-op returning `w1`
itself (so `matchedRoute`, `params` and `query` are untouched and no further
listener is attached). -/
theorem c9_init_idempotent (fuel fuel2 : Nat) (w0 w1 : World)
    (h0 : w0.router.isInitialized = false)
    (hl : w0.env.listeners = 0)
    (h : init fuel w0 = some (.ok w1)) :
    init fuel2 w1 = some (.ok w1) ∧ w1.env.listeners = 1 := by
  simp only [init, h0, Bool.false_eq_true, if_false] at h
  split at h
  · simp at h
  · simp at h
  · rename_i w3 tr hn
    simp only [Option.some.injEq, Except.ok.injEq] at h
    have hlist : w3.env.listeners = (listenedEnv w0.env).listeners :=
      navigateTo_preserves_listeners fuel _ _ w3 tr hn
    have hw1l : w1.env.listeners = 1 := by
      rw [← h]
      show w3.env.listeners = 1
      rw [hlist]
      simp only [listenedEnv, ensureHash]
      by_cases hh : w0.env.hash = "" <;> simp [hh, hl]
    have hw1i : w1.router.isInitialized = true := by
      rw [← h]
    refine ⟨?_, hw1l⟩
    simp [init, hw1i]

theorem c9_init_idempotent_witness :
    init 5 initedWorld = some (.ok initedWorld) ∧ initedWorld.env.listeners = 1 :=
  c9_init_idempotent 1 5 freshWorld initedWorld rfl rfl rfl

/-- When the candidate path does not lead to a recursion, `navigateTo`
resolves in one step. -/
theorem navigateTo_done_of_redirNext_none (w : World) (p : String) (fuel : Nat)
    (h : redirNext w p = none) :
    ∃ res, navigateTo (fuel + 1) w p = some res := by
  rw [← Option.isSome_iff_exists]
  simp only [redirNext] at h
  split at h
  · rename_i hfind
    simp [navigateTo, hfind]
  · rename_i m hfind
    split at h
    · simp at h
    · rename_i hred
      split at h
      · rename_i e hcc
        simp [navigateTo, hfind, hred, hcc]
      · rename_i hcc
        simp [navigateTo, hfind, hred, hcc]
      · rename_i hcc
        simp [navigateTo, hfind, hred, hcc]
      · simp at h

/-- When the candidate path recurses, one fuel step is consumed and the run
continues at the redirect target. -/
theorem navigateTo_step_of_redirNext_some (w : World) (p q : String) (fuel : Nat)
    (h : redirNext w p = some q) :
    navigateTo (fuel + 1) w p = navigateTo fuel w q := by
  simp only [redirNext] at h
  split at h
  · simp at h
  · rename_i m hfind
    split at h
    · rename_i target hred
      simp only [Option.some.injEq] at h
      subst h
      simp [navigateTo, hfind, hred]
    · rename_i hred
      split at h
      · simp at h
      · simp at h
      · simp at h
      · rename_i r hcc
        simp only [Option.some.injEq] at h
        subst h
        simp [navigateTo, hfind, hred, hcc]

/-- C10: `navigateTo` recurses on redirect-only matches and guard redirects
with no cycle detection: whenever the redirect chain from a path reaches a
non-recursing candidate within `n` steps, the run resolves with fuel `n + 1`
(so it terminates on finite acyclic redirect chains), while on `loopWorld` -
whose first matcher for `/loop` is a redirect-only route targeting `/loop`
itself - `navigateTo '/loop'` exhausts every amount of fuel, i.e. the JS call
never resolves. -/
theorem c10_navigateTo_termination :
    (∀ (n : Nat) (w : World) (p : String), chainTerminates n w p →
      ∃ res, navigateTo (n + 1) w p = some res) ∧
    (∀ fuel, navigateTo fuel loopWorld "/loop" = none) := by
  constructor
  · intro n
    induction n with
    | zero => intro w p h; exact navigateTo_done_of_redirNext_none w p 0 h
    | succ k ih =>
      intro w p h
      rcases h with h | ⟨q, hq, hterm⟩
      · exact navigateTo_done_of_redirNext_none w p (k + 1) h
      · rw [navigateTo_step_of_redirNext_some w p q (k + 1) hq]
        exact ih w q hterm
  · intro fuel
    induction fuel with
    | zero => rfl
    | succ n ih =>
      have hstep : navigateTo (n + 1) loopWorld "/loop" =
          navigateTo n loopWorld "/loop" := rfl
      rw [hstep, ih]

theorem c10_navigateTo_termination_witness :
    (∃ res, navigateTo 1 loopWorld "/other" = some res) ∧
    navigateTo 3 loopWorld "/loop" = none :=
  ⟨c10_navigateTo_termination.1 0 loopWorld "/other" rfl,
    c10_navigateTo_termination.2 3⟩

end FwkRouter

namespace FwkCompiler

theorem modifyLast_cons (f : Line → Line) (a : Line) (l : List Line) (h : l ≠ []) :
    modifyLast f (a :: l) = a :: modifyLast f l := by
  cases l with
  | nil => exact absurd rfl h
  | cons b t => rfl

theorem modifyLast_append (f : Line → Line) (xs : List Line) :
    ∀ ys : List Line, ys ≠ [] → modifyLast f (xs ++ ys) = xs ++ modifyLast f ys := by
  induction xs with
  | nil => intro ys _; rfl
  | cons a xs ih =>
    intro ys hys
    rw [List.cons_append,
      modifyLast_cons f a (xs ++ ys) (List.append_ne_nil_of_right_ne_nil xs hys),
      ih ys hys, List.cons_append]

theorem modifyLast_concat (f : Line → Line) (xs : List Line) (a : Line) :
    modifyLast f (xs ++ [a]) = xs ++ [f a] := by
  rw [modifyLast_append f xs [a] (by simp)]; rfl

theorem lastLine_cons (a : Line) (l : List Line) (h : l ≠ []) :
    lastLine (a :: l) = lastLine l := by
  cases l with
  | nil => exact absurd rfl h
  | cons b t => rfl

theorem lastLine_append (xs : List Line) :
    ∀ ys : List Line, ys ≠ [] → lastLine (xs ++ ys) = lastLine ys := by
  induction xs with
  | nil => intro ys _; rfl
  | cons a xs ih =>
    intro ys hys
    rw [List.cons_append,
      lastLine_cons a (xs ++ ys) (List.append_ne_nil_of_right_ne_nil xs hys),
      ih ys hys]

theorem lastLine_concat (xs : List Line) (a : Line) : lastLine (xs ++ [a]) = a := by
  rw [lastLine_append xs [a] (by simp)]; rfl

theorem lastLine_modifyLast (f : Line → Line) :
    ∀ l : List Line, l ≠ [] → lastLine (modifyLast f l) = f (lastLine l) := by
  intro l
  induction l with
  | nil => intro h; exact absurd rfl h
  | cons a t ih =>
    intro _
    cases t with
    | nil => rfl
    | cons b t2 =>
      rw [modifyLast_cons f a (b :: t2) (by simp),
        lastLine_cons a (modifyLast f (b :: t2)) ?hne,
        lastLine_cons a (b :: t2) (by simp), ih (by simp)]
      case hne =>
        cases t2 with
        | nil => simp [modifyLast]
        | cons c t3 => simp [modifyLast]

theorem startsWsClosing_append_left (l1 l2 : Line)
    (h : startsWsClosing l1 = true) : startsWsClosing (l1 ++ l2) = true := by
  induction l1 with
  | nil => simp [startsWsClosing] at h
  | cons c t ih =>
    by_cases hc : isJsSpace c = true
    · simp only [startsWsClosing, List.dropWhile, hc] at h ⊢
      exact ih h
    · simp only [startsWsClosing, List.dropWhile, hc] at h ⊢
      simpa using h

theorem startsWsClosing_take (n : Nat) (l : Line)
    (h : startsWsClosing (l.take n) = true) : startsWsClosing l = true := by
  have := startsWsClosing_append_left (l.take n) (l.drop n) h
  rwa [List.take_append_drop] at this

theorem startsWsClosing_dropLast (l : Line)
    (h : startsWsClosing l.dropLast = true) : startsWsClosing l = true := by
  rw [List.dropLast_eq_take] at h
  exact startsWsClosing_take _ l h

theorem endsCommaWs_concat (l : Line) (c : Char) :
    endsCommaWs (l ++ [c]) = if isJsSpace c then endsCommaWs l else c == ',' := by
  by_cases hc : isJsSpace c = true <;>
    simp [endsCommaWs, List.dropWhile, hc]

theorem mem_addImport (t s : String) (L : List String) (h : t ≠ s) :
    t ∈ addImport L s ↔ t ∈ L := by
  rw [addImport]
  split
  · exact Iff.rfl
  · simp [h]

theorem appendClose_stack (st : CState) (e : Line) (rest : List Line) :
    (appendClose st e rest).stack = rest := rfl

theorem appendClose_imports (st : CState) (e : Line) (rest : List Line) :
    (appendClose st e rest).imports = st.imports := rfl

theorem appendClose_lines_ext (st : CState) (e : Line) (rest : List Line)
    (X mid : List Line) (hl : st.lines = X ++ mid) (hm : mid ≠ []) :
    ∃ mid2, (appendClose st e rest).lines = X ++ mid2 ∧ mid2 ≠ [] := by
  by_cases hco : endsCommaWs (lastLine (X ++ mid)) = true ∧ startsWsClosing e = true
  · refine ⟨modifyLast List.dropLast mid ++ [e], ?_, by simp⟩
    simp [appendClose, hl, hco, modifyLast_append List.dropLast X mid hm]
  · exact ⟨mid ++ [e], by simp [appendClose, hl, hco], by simp⟩

theorem modifyHead_cons (f : Line → Line) (a : Line) (t : List Line) :
    modifyHead f (a :: t) = f a :: t := rfl

theorem modifyHead_drop_zero (S : List Line) : modifyHead (List.drop 0) S = S := by
  cases S <;> simp [modifyHead]

theorem modifyHead_drop_drop (k : Nat) (S : List Line) :
    modifyHead (List.drop k) (modifyHead (List.drop 1) S) =
    modifyHead (List.drop (k + 1)) S := by
  cases S with
  | nil => rfl
  | cons a t => simp [modifyHead, List.drop_drop]

theorem popClosers_spec :
    ∀ (n : Nat) (st : CState) (cs S X mid : List Line),
    st.stack = cs ++ S → cs.length = n → st.lines = X ++ mid → mid ≠ [] →
    (popClosers n st).stack = S ∧ (popClosers n st).imports = st.imports ∧
    ∃ mid2, (popClosers n st).lines = X ++ mid2 ∧ mid2 ≠ [] := by
  intro n
  induction n with
  | zero =>
    intro st cs S X mid hs hc hl hm
    have hcnil : cs = [] := List.eq_nil_of_length_eq_zero hc
    subst hcnil
    exact ⟨by simpa using hs, rfl, mid, hl, hm⟩
  | succ k ih =>
    intro st cs S X mid hs hc hl hm
    cases cs with
    | nil => simp at hc
    | cons e cs2 =>
      have hstep : popClosers (k + 1) st = popClosers k (appendClose st e (cs2 ++ S)) := by
        simp [popClosers, addLineFromStack, hs]
      obtain ⟨mid2, hl2, hm2⟩ := appendClose_lines_ext st e (cs2 ++ S) X mid hl hm
      rw [hstep]
      have := ih (appendClose st e (cs2 ++ S)) cs2 S X mid2
        (appendClose_stack st e (cs2 ++ S)) (by simpa using hc) hl2 hm2
      exact ⟨this.1, by rw [this.2.1, appendClose_imports], this.2.2⟩

/-- What the closer pops at the end of `#addElement` leave of an opened
element: given the opened state's buffer is the caller's buffer (`L`) plus the
freshly pushed opener lines, and its stack is this element's closers on top of
the caller's stack (`Sbase`), the child walk (characterized by `hstk`/`hlin`)
followed by popping the `n = closers.length` closers restores the caller's
stack exactly and only extends the caller's buffer. -/
theorem afterOpen_spec (hs : Helpers) (cs : PNodeList) (st2 : CState)
    (L pushedL closers Sbase : List Line) (n k : Nat) (mid : List Line)
    (hlines : st2.lines = L ++ pushedL) (hpush : pushedL ≠ [])
    (hstack : st2.stack = closers ++ Sbase) (hn : closers.length = n)
    (hcne : closers ≠ [])
    (hstk : (addNodes hs cs st2).stack = modifyHead (List.drop k) st2.stack)
    (hlin : (addNodes hs cs st2).lines = st2.lines ++ mid ∨
      ((addNodes hs cs st2).lines = modifyLast dropLast2 st2.lines ++ mid ∧ mid ≠ [])) :
    (popClosers n (addNodes hs cs st2)).stack = Sbase ∧
    (popClosers n (addNodes hs cs st2)).imports = (addNodes hs cs st2).imports ∧
    ∃ mid2, (popClosers n (addNodes hs cs st2)).lines = L ++ mid2 ∧ mid2 ≠ [] := by
  have hLines : ∃ MID, (addNodes hs cs st2).lines = L ++ MID ∧ MID ≠ [] := by
    rcases hlin with h | ⟨h, _⟩
    · refine ⟨pushedL ++ mid, ?_, by simp [hpush]⟩
      rw [h, hlines, List.append_assoc]
    · rw [hlines, modifyLast_append dropLast2 L pushedL hpush] at h
      refine ⟨modifyLast dropLast2 pushedL ++ mid, ?_, ?_⟩
      · rw [h, List.append_assoc]
      · have hmlp : modifyLast dropLast2 pushedL ≠ [] := by
          cases pushedL with
          | nil => exact absurd rfl hpush
          | cons x xs => cases xs <;> simp [modifyLast]
        simp [hmlp]
  obtain ⟨MID, hM, hMne⟩ := hLines
  cases closers with
  | nil => exact absurd rfl hcne
  | cons c crest =>
    have hstk2 : (addNodes hs cs st2).stack = (c.drop k :: crest) ++ Sbase := by
      rw [hstk, hstack]
      rfl
    have hlen : (c.drop k :: crest).length = n := by simpa using hn
    exact popClosers_spec n (addNodes hs cs st2) (c.drop k :: crest) Sbase L MID
      hstk2 hlen hM hMne

mutual

/-- The net effect of `#addNode` on the caller's state: a node without a
`for` directive leaves the stack intact and only appends buffer lines; a node
with one applies exactly the `slice(0, -2)` rewrite to the caller's last line
and the `slice(1)` rewrite to the caller's stack top before appending; and no
node ever touches the `hFragment` import. -/
theorem addNode_shape (hs : Helpers) (n : PNode) (st : CState) :
    ∃ mid,
      ("hFragment" ∈ (addNode hs n st).imports ↔ "hFragment" ∈ st.imports) ∧
      (forTop hs n = true →
        (addNode hs n st).stack = modifyHead (List.drop 1) st.stack ∧
        (addNode hs n st).lines = modifyLast dropLast2 st.lines ++ mid ∧ mid ≠ []) ∧
      (forTop hs n = false →
        (addNode hs n st).stack = st.stack ∧
        (addNode hs n st).lines = st.lines ++ mid) := by
  cases n with
  | text r =>
    by_cases ht : trimLine r = []
    · exact ⟨[], by simp [addNode, addText, ht], by simp [forTop],
        fun _ => ⟨by simp [addNode, addText, ht], by simp [addNode, addText, ht]⟩⟩
    · refine ⟨[str "hString(" ++ hs.interpolateVariables (trimLine r) ++ str "),"],
        ?_, by simp [forTop], fun _ => ⟨by simp [addNode, addText, ht], by simp [addNode, addText, ht]⟩⟩
      simp only [addNode, addText, ht, if_neg ht]
      exact mem_addImport "hFragment" "hString" st.imports (by decide)
  | other =>
    exact ⟨[], Iff.rfl, by simp [forTop], fun _ => ⟨rfl, by simp [addNode]⟩⟩
  | element t a cs =>
    have hft : forTop hs (.element t a cs) = hasForDirective hs a := rfl
    cases hfor : (hs.splitAttributes a).directives.lookup (str "for") with
    | none =>
      have hftf : forTop hs (.element t a cs) = false := by
        rw [hft, hasForDirective, hfor]; rfl
      cases hshow : (hs.splitAttributes a).directives.lookup (str "show") with
      | none =>
        have hopen : addElementOpen hs st t a =
            ({ lines := st.lines ++
                [str "h(" ++ hs.normalizeTagName t ++ str ", " ++
                  hs.extractProps (hs.splitAttributes a).attrs
                    (hs.splitAttributes a).bindings (hs.splitAttributes a).events ++ str ", ["],
               stack := str "])," :: st.stack,
               imports := addImport st.imports "h" }, 1) := by
          simp [addElementOpen, hfor, hshow]
        have h2 : (addElementOpen hs st t a).2 = 1 := by rw [hopen]
        have heq : addNode hs (.element t a cs) st =
            popClosers 1 (addNodes hs cs (addElementOpen hs st t a).1) := by
          rw [← h2]; simp [addNode]
        obtain ⟨⟨k, mid, himp, hstk, hlin⟩, -⟩ :=
          addNodes_shape hs cs (addElementOpen hs st t a).1
        have himp1 : (addElementOpen hs st t a).1.imports = addImport st.imports "h" := by
          rw [hopen]
        have hres := afterOpen_spec hs cs (addElementOpen hs st t a).1 st.lines
          [str "h(" ++ hs.normalizeTagName t ++ str ", " ++
            hs.extractProps (hs.splitAttributes a).attrs
              (hs.splitAttributes a).bindings (hs.splitAttributes a).events ++ str ", ["]
          [str "]),"] st.stack 1 k mid
          (by rw [hopen]) (by simp) (by rw [hopen]; rfl) rfl (by simp) hstk hlin
        obtain ⟨mid2, hl2, hm2⟩ := hres.2.2
        refine ⟨mid2, ?_, by simp [hftf], fun _ => ⟨by rw [heq, hres.1], by rw [heq, hl2]⟩⟩
        rw [heq, hres.2.1]
        rw [himp1] at himp
        exact himp.trans (mem_addImport "hFragment" "h" st.imports (by decide))
      | some se =>
        have hopen : addElementOpen hs st t a =
            ({ lines := (st.lines ++ [hs.addThisContext se ++ str " ?"]) ++
                [str "h(" ++ hs.normalizeTagName t ++ str ", " ++
                  hs.extractProps (hs.splitAttributes a).attrs
                    (hs.splitAttributes a).bindings (hs.splitAttributes a).events ++ str ", ["],
               stack := str "])," :: str ": null" :: st.stack,
               imports := addImport st.imports "h" }, 2) := by
          simp [addElementOpen, hfor, hshow]
        have h2 : (addElementOpen hs st t a).2 = 2 := by rw [hopen]
        have heq : addNode hs (.element t a cs) st =
            popClosers 2 (addNodes hs cs (addElementOpen hs st t a).1) := by
          rw [← h2]; simp [addNode]
        obtain ⟨⟨k, mid, himp, hstk, hlin⟩, -⟩ :=
          addNodes_shape hs cs (addElementOpen hs st t a).1
        have himp1 : (addElementOpen hs st t a).1.imports = addImport st.imports "h" := by
          rw [hopen]
        have hres := afterOpen_spec hs cs (addElementOpen hs st t a).1 st.lines
          ([hs.addThisContext se ++ str " ?"] ++
            [str "h(" ++ hs.normalizeTagName t ++ str ", " ++
              hs.extractProps (hs.splitAttributes a).attrs
                (hs.splitAttributes a).bindings (hs.splitAttributes a).events ++ str ", ["])
          [str "]),", str ": null"] st.stack 2 k mid
          (by rw [hopen]; simp) (by simp) (by rw [hopen]; rfl) rfl (by simp) hstk hlin
        obtain ⟨mid2, hl2, hm2⟩ := hres.2.2
        refine ⟨mid2, ?_, by simp [hftf], fun _ => ⟨by rw [heq, hres.1], by rw [heq, hl2]⟩⟩
        rw [heq, hres.2.1]
        rw [himp1] at himp
        exact himp.trans (mem_addImport "hFragment" "h" st.imports (by decide))
    | some fe =>
      have hftt : forTop hs (.element t a cs) = true := by
        rw [hft, hasForDirective, hfor]; rfl
      cases hshow : (hs.splitAttributes a).directives.lookup (str "show") with
      | none =>
        have hopen : addElementOpen hs st t a =
            ({ lines := (modifyLast (fun l => l.dropLast.dropLast) st.lines ++
                [(hs.formatForDirective fe).1]) ++
                [str "h(" ++ hs.normalizeTagName t ++ str ", " ++
                  hs.extractProps (hs.splitAttributes a).attrs
                    (hs.splitAttributes a).bindings (hs.splitAttributes a).events ++ str ", ["],
               stack := str "])," :: (hs.formatForDirective fe).2 ::
                 modifyHead (List.drop 1) st.stack,
               imports := addImport st.imports "h" }, 2) := by
          simp [addElementOpen, hfor, hshow]
        have h2 : (addElementOpen hs st t a).2 = 2 := by rw [hopen]
        have heq : addNode hs (.element t a cs) st =
            popClosers 2 (addNodes hs cs (addElementOpen hs st t a).1) := by
          rw [← h2]; simp [addNode]
        obtain ⟨⟨k, mid, himp, hstk, hlin⟩, -⟩ :=
          addNodes_shape hs cs (addElementOpen hs st t a).1
        have himp1 : (addElementOpen hs st t a).1.imports = addImport st.imports "h" := by
          rw [hopen]
        have hres := afterOpen_spec hs cs (addElementOpen hs st t a).1
          (modifyLast (fun l => l.dropLast.dropLast) st.lines)
          ([(hs.formatForDirective fe).1] ++
            [str "h(" ++ hs.normalizeTagName t ++ str ", " ++
              hs.extractProps (hs.splitAttributes a).attrs
                (hs.splitAttributes a).bindings (hs.splitAttributes a).events ++ str ", ["])
          [str "]),", (hs.formatForDirective fe).2] (modifyHead (List.drop 1) st.stack)
          2 k mid (by rw [hopen]; simp) (by simp) (by rw [hopen]; rfl) rfl (by simp) hstk hlin
        obtain ⟨mid2, hl2, hm2⟩ := hres.2.2
        refine ⟨mid2, ?_, fun _ => ⟨by rw [heq, hres.1], by rw [heq, hl2]; rfl, hm2⟩,
          by simp [hftt]⟩
        rw [heq, hres.2.1]
        rw [himp1] at himp
        exact himp.trans (mem_addImport "hFragment" "h" st.imports (by decide))
      | some se =>
        have hopen : addElementOpen hs st t a =
            ({ lines := ((modifyLast (fun l => l.dropLast.dropLast) st.lines ++
                [(hs.formatForDirective fe).1]) ++ [hs.addThisContext se ++ str " ?"]) ++
                [str "h(" ++ hs.normalizeTagName t ++ str ", " ++
                  hs.extractProps (hs.splitAttributes a).attrs
                    (hs.splitAttributes a).bindings (hs.splitAttributes a).events ++ str ", ["],
               stack := str "])," :: str ": null" :: (hs.formatForDirective fe).2 ::
                 modifyHead (List.drop 1) st.stack,
               imports := addImport st.imports "h" }, 3) := by
          simp [addElementOpen, hfor, hshow]
        have h2 : (addElementOpen hs st t a).2 = 3 := by rw [hopen]
        have heq : addNode hs (.element t a cs) st =
            popClosers 3 (addNodes hs cs (addElementOpen hs st t a).1) := by
          rw [← h2]; simp [addNode]
        obtain ⟨⟨k, mid, himp, hstk, hlin⟩, -⟩ :=
          addNodes_shape hs cs (addElementOpen hs st t a).1
        have himp1 : (addElementOpen hs st t a).1.imports = addImport st.imports "h" := by
          rw [hopen]
        have hres := afterOpen_spec hs cs (addElementOpen hs st t a).1
          (modifyLast (fun l => l.dropLast.dropLast) st.lines)
          (([(hs.formatForDirective fe).1] ++ [hs.addThisContext se ++ str " ?"]) ++
            [str "h(" ++ hs.normalizeTagName t ++ str ", " ++
              hs.extractProps (hs.splitAttributes a).attrs
                (hs.splitAttributes a).bindings (hs.splitAttributes a).events ++ str ", ["])
          [str "]),", str ": null", (hs.formatForDirective fe).2]
          (modifyHead (List.drop 1) st.stack)
          3 k mid (by rw [hopen]; simp) (by simp) (by rw [hopen]; rfl) rfl (by simp) hstk hlin
        obtain ⟨mid2, hl2, hm2⟩ := hres.2.2
        refine ⟨mid2, ?_, fun _ => ⟨by rw [heq, hres.1], by rw [heq, hl2]; rfl, hm2⟩,
          by simp [hftt]⟩
        rw [heq, hres.2.1]
        rw [himp1] at himp
        exact himp.trans (mem_addImport "hFragment" "h" st.imports (by decide))

/-- The net effect of the walk over a node list: the caller's stack loses at
most a prefix of its top entry (one leading character per top-level `for`
node), the buffer is only extended - with the caller's own last line rewritten
once when the first effective node carries a `for` directive - and the
`hFragment` import is never added.  When no top-level node carries a `for`
directive the caller's stack and buffer prefix survive exactly. -/
theorem addNodes_shape (hs : Helpers) (l : PNodeList) (st : CState) :
    (∃ k mid,
      ("hFragment" ∈ (addNodes hs l st).imports ↔ "hFragment" ∈ st.imports) ∧
      (addNodes hs l st).stack = modifyHead (List.drop k) st.stack ∧
      ((addNodes hs l st).lines = st.lines ++ mid ∨
        ((addNodes hs l st).lines = modifyLast dropLast2 st.lines ++ mid ∧ mid ≠ []))) ∧
    (noTopFor hs l →
      (addNodes hs l st).stack = st.stack ∧
      ∃ mid2, (addNodes hs l st).lines = st.lines ++ mid2) := by
  cases l with
  | nil =>
    refine ⟨⟨0, [], Iff.rfl, by rw [modifyHead_drop_zero]; simp [addNodes],
        Or.inl (by simp [addNodes])⟩,
      fun _ => ⟨by simp [addNodes], [], by simp [addNodes]⟩⟩
  | cons n ns =>
    have heq : addNodes hs (.cons n ns) st = addNodes hs ns (addNode hs n st) := by
      simp [addNodes]
    obtain ⟨midn, himpn, hfortrue, hforfalse⟩ := addNode_shape hs n st
    obtain ⟨⟨k, mid, himp, hstk, hlin⟩, hnofor⟩ := addNodes_shape hs ns (addNode hs n st)
    have himp2 : ("hFragment" ∈ (addNodes hs (.cons n ns) st).imports ↔
        "hFragment" ∈ st.imports) := by
      rw [heq]; exact himp.trans himpn
    constructor
    · cases hft : forTop hs n with
      | false =>
        obtain ⟨hstk1, hlin1⟩ := hforfalse hft
        have hstk2 : (addNodes hs (.cons n ns) st).stack =
            modifyHead (List.drop k) st.stack := by
          rw [heq, hstk, hstk1]
        rcases hlin with h | ⟨h, hm⟩
        · refine ⟨k, midn ++ mid, himp2, hstk2, Or.inl ?_⟩
          rw [heq, h, hlin1, List.append_assoc]
        · rw [hlin1] at h
          cases hmn : midn with
          | nil =>
            refine ⟨k, mid, himp2, hstk2, Or.inr ⟨?_, hm⟩⟩
            rw [hmn, List.append_nil] at h
            rw [heq, h]
          | cons x xs =>
            refine ⟨k, modifyLast dropLast2 midn ++ mid, himp2, hstk2, Or.inl ?_⟩
            rw [modifyLast_append dropLast2 st.lines midn (by rw [hmn]; simp)] at h
            rw [heq, h, List.append_assoc]
      | true =>
        obtain ⟨hstk1, hlin1, hmn⟩ := hfortrue hft
        have hstk2 : (addNodes hs (.cons n ns) st).stack =
            modifyHead (List.drop (k + 1)) st.stack := by
          rw [heq, hstk, hstk1, modifyHead_drop_drop]
        rcases hlin with h | ⟨h, hm⟩
        · refine ⟨k + 1, midn ++ mid, himp2, hstk2, Or.inr ⟨?_, by simp [hmn]⟩⟩
          rw [heq, h, hlin1, List.append_assoc]
        · have hmln : modifyLast dropLast2 midn ≠ [] := by
            cases midn with
            | nil => exact absurd rfl hmn
            | cons x xs => cases xs <;> simp [modifyLast]
          refine ⟨k + 1, modifyLast dropLast2 midn ++ mid, himp2, hstk2,
            Or.inr ⟨?_, by simp [hmln]⟩⟩
          rw [heq, h, hlin1, modifyLast_append dropLast2 _ midn hmn, List.append_assoc]
    · rintro ⟨hftf, hrest⟩
      obtain ⟨hstk1, hlin1⟩ := hforfalse hftf
      obtain ⟨hstk2, mid2, hlin2⟩ := hnofor hrest
      exact ⟨by rw [heq, hstk2, hstk1], midn ++ mid2,
        by rw [heq, hlin2, hlin1, List.append_assoc]⟩

end

theorem addLineFromStack_eq (st : CState) (e : Line) (rest : List Line)
    (h : st.stack = e :: rest) : addLineFromStack st = appendClose st e rest := by
  simp [addLineFromStack, h]

theorem drain_nil (st : CState) (h : st.stack = []) : drain st = st := by
  simp [drain, h, popClosers]

theorem drain_step (st : CState) (e : Line) (rest : List Line)
    (h : st.stack = e :: rest) : drain st = drain (appendClose st e rest) := by
  simp only [drain, h, appendClose_stack, List.length_cons, popClosers,
    addLineFromStack_eq st e rest h]

theorem drain_imports : ∀ (N : Nat) (st : CState), st.stack.length ≤ N →
    (drain st).imports = st.imports := by
  intro N
  induction N with
  | zero =>
    intro st hN
    cases hstack : st.stack with
    | nil => rw [drain_nil st hstack]
    | cons e rest => rw [hstack] at hN; simp at hN
  | succ Nk ih =>
    intro st hN
    cases hstack : st.stack with
    | nil => rw [drain_nil st hstack]
    | cons e rest =>
      rw [drain_step st e rest hstack,
        ih (appendClose st e rest) (by rw [appendClose_stack]; rw [hstack] at hN; simpa using hN),
        appendClose_imports]

/-- Appending a closer can strip or extend only lines after the third-buffer
position, as long as the watched line either does not end in a comma or is not
the last line. -/
theorem appendClose_keeps_third (st : CState) (e : Line) (rest2 : List Line)
    (X : List Line) (s : Line) (rest : List Line)
    (hl : st.lines = X ++ s :: rest)
    (hcase : endsCommaWs s = false ∨ rest ≠ []) :
    ∃ rest3, (appendClose st e rest2).lines = X ++ s :: rest3 ∧ rest3 ≠ [] := by
  cases hrest : rest with
  | nil =>
    have hs : endsCommaWs s = false := by
      rcases hcase with h | h
      · exact h
      · exact absurd hrest h
    have hll : lastLine st.lines = s := by
      rw [hl, hrest]
      exact lastLine_concat X s
    have hline : (appendClose st e rest2).lines = st.lines ++ [e] := by
      simp [appendClose, hll, hs]
    refine ⟨[e], ?_, by simp⟩
    rw [hline, hl, hrest]
    simp
  | cons r rs =>
    have hsplit : X ++ s :: r :: rs = (X ++ [s]) ++ r :: rs := by simp
    by_cases hco : endsCommaWs (lastLine st.lines) = true ∧ startsWsClosing e = true
    · refine ⟨modifyLast List.dropLast (r :: rs) ++ [e], ?_, by simp⟩
      rw [show (appendClose st e rest2).lines =
          modifyLast List.dropLast st.lines ++ [e] by simp [appendClose, hco],
        hl, hrest, hsplit, modifyLast_append List.dropLast (X ++ [s]) (r :: rs) (by simp)]
      simp
    · refine ⟨(r :: rs) ++ [e], ?_, by simp⟩
      rw [show (appendClose st e rest2).lines = st.lines ++ [e] by simp [appendClose, hco],
        hl, hrest]
      simp

/-- Draining the closer stack never disturbs the first lines of the buffer up
to and including a watched third line that either does not end in a comma or
already has lines after it. -/
theorem drain_keeps_third : ∀ (N : Nat) (st : CState) (X : List Line) (s : Line)
    (rest : List Line), st.stack.length ≤ N →
    st.lines = X ++ s :: rest →
    (endsCommaWs s = false ∨ rest ≠ []) →
    ∃ rest2, (drain st).lines = X ++ s :: rest2 := by
  intro N
  induction N with
  | zero =>
    intro st X s rest hN hl _
    cases hstack : st.stack with
    | nil => rw [drain_nil st hstack]; exact ⟨rest, hl⟩
    | cons e srest => rw [hstack] at hN; simp at hN
  | succ Nk ih =>
    intro st X s rest hN hl hcase
    cases hstack : st.stack with
    | nil => rw [drain_nil st hstack]; exact ⟨rest, hl⟩
    | cons e srest =>
      rw [drain_step st e srest hstack]
      obtain ⟨rest3, hl3, hm3⟩ := appendClose_keeps_third st e srest X s rest hl hcase
      exact ih (appendClose st e srest) X s rest3
        (by rw [appendClose_stack]; rw [hstack] at hN; simpa using hN)
        hl3 (Or.inr hm3)

/-- C8: `compile` adds the `hFragment` import exactly when the parsed forest
has more than one top-level node, and in that case the third buffer line of
the returned program is the fragment wrapper opener `h(Fragment, {}, [` -
possibly rewritten to `h(Fragment, {},` by a leading `for` node's
`slice(0, -2)` surgery, which makes the loop expression the fragment's
children argument; with exactly one top-level node no wrapper is pushed and
`hFragment` is never added. -/
theorem c8_fragment_wrapper (hs : Helpers) (ns : PNodeList) :
    ("hFragment" ∈ (compile hs ns).imports ↔ 1 < lenPNL ns) ∧
    (1 < lenPNL ns → ∃ s rest, (compile hs ns).lines =
      str "function render() \x7b" :: str "return (" :: s :: rest ∧
      (s = str "h(Fragment, \x7b\x7d, [" ∨
        s = dropLast2 (str "h(Fragment, \x7b\x7d, ["))) := by
  by_cases hlen : 1 < lenPNL ns
  · have hcomp : compile hs ns = drain (addNodes hs ns wrapState) := by
      simp [compile, wrapState, hlen]
    obtain ⟨⟨k, mid, himp, hstk, hlin⟩, -⟩ := addNodes_shape hs ns wrapState
    have himpW : "hFragment" ∈ wrapState.imports := by
      simp [wrapState, initialState, addImport]
    have himpD : (drain (addNodes hs ns wrapState)).imports =
        (addNodes hs ns wrapState).imports :=
      drain_imports (addNodes hs ns wrapState).stack.length _ le_rfl
    constructor
    · rw [hcomp, himpD]
      exact iff_of_true (himp.mpr himpW) hlen
    · intro _
      have hlw : wrapState.lines = [str "function render() \x7b", str "return ("] ++
          (str "h(Fragment, \x7b\x7d, [") :: [] := by
        simp [wrapState, initialState]
      rcases hlin with h | ⟨h, hm⟩
      · have hsh : (addNodes hs ns wrapState).lines =
            [str "function render() \x7b", str "return ("] ++
              (str "h(Fragment, \x7b\x7d, [") :: mid := by
          rw [h, hlw]; simp
        obtain ⟨rest2, hdl⟩ := drain_keeps_third
          (addNodes hs ns wrapState).stack.length (addNodes hs ns wrapState)
          [str "function render() \x7b", str "return ("]
          (str "h(Fragment, \x7b\x7d, [") mid le_rfl hsh (Or.inl (by decide))
        exact ⟨str "h(Fragment, \x7b\x7d, [", rest2,
          by rw [hcomp]; exact hdl, Or.inl rfl⟩
      · have hml : modifyLast dropLast2 wrapState.lines =
            [str "function render() \x7b", str "return ("] ++
              (dropLast2 (str "h(Fragment, \x7b\x7d, [")) :: [] := by
          simp [wrapState, initialState, modifyLast]
        have hsh : (addNodes hs ns wrapState).lines =
            [str "function render() \x7b", str "return ("] ++
              (dropLast2 (str "h(Fragment, \x7b\x7d, [")) :: mid := by
          rw [h, hml]; simp
        obtain ⟨rest2, hdl⟩ := drain_keeps_third
          (addNodes hs ns wrapState).stack.length (addNodes hs ns wrapState)
          [str "function render() \x7b", str "return ("]
          (dropLast2 (str "h(Fragment, \x7b\x7d, [")) mid le_rfl hsh (Or.inr hm)
        exact ⟨dropLast2 (str "h(Fragment, \x7b\x7d, ["), rest2,
          by rw [hcomp]; exact hdl, Or.inr rfl⟩
  · have hcomp : compile hs ns = drain (addNodes hs ns initialState) := by
      simp [compile, hlen]
    refine ⟨?_, fun h => absurd h hlen⟩
    obtain ⟨⟨k, mid, himp, hstk, hlin⟩, -⟩ := addNodes_shape hs ns initialState
    rw [hcomp, drain_imports (addNodes hs ns initialState).stack.length _ le_rfl, himp]
    simp [initialState, hlen]

theorem c8_fragment_wrapper_witness :
    ("hFragment" ∈ (compile specHelpers twoTexts).imports ↔ 1 < lenPNL twoTexts) ∧
    (∃ s rest, (compile specHelpers twoTexts).lines =
      str "function render() \x7b" :: str "return (" :: s :: rest ∧
      (s = str "h(Fragment, \x7b\x7d, [" ∨
        s = dropLast2 (str "h(Fragment, \x7b\x7d, ["))) :=
  ⟨(c8_fragment_wrapper specHelpers twoTexts).1,
    (c8_fragment_wrapper specHelpers twoTexts).2 (by decide)⟩

theorem appendClose_lines_strip (st : CState) (e : Line) (rest : List Line)
    (h : endsCommaWs (lastLine st.lines) = true) (h2 : startsWsClosing e = true) :
    (appendClose st e rest).lines = modifyLast List.dropLast st.lines ++ [e] := by
  simp [appendClose, h, h2]

theorem appendClose_lines_noStrip1 (st : CState) (e : Line) (rest : List Line)
    (h : endsCommaWs (lastLine st.lines) = false) :
    (appendClose st e rest).lines = st.lines ++ [e] := by
  simp [appendClose, h]

theorem appendClose_lines_noStrip2 (st : CState) (e : Line) (rest : List Line)
    (h : startsWsClosing e = false) :
    (appendClose st e rest).lines = st.lines ++ [e] := by
  simp [appendClose, h]

/-- Popping the three closers a `for` + `show` element pushed: the
children-list closer `]),` is appended first (stripped to `])` when the
`: null` conditional closer lands after it), then the `for` closer - so the
closers unwind innermost-first: element, conditional, loop. -/
theorem popClosers_three_spec (A : CState) (X mid : List Line) (fc : Line)
    (S2 : List Line)
    (hstack : A.stack = str "])," :: str ": null" :: fc :: S2)
    (hlines : A.lines = X ++ mid)
    (hX : endsCommaWs (lastLine X) = false) :
    ∃ mid2, (popClosers 3 A).lines = X ++ mid2 ++ [str "])", str ": null", fc] ∧
      (popClosers 3 A).stack = S2 := by
  have e1 : popClosers 3 A =
      popClosers 2 (appendClose A (str "]),") (str ": null" :: fc :: S2)) := by
    show popClosers 2 (addLineFromStack A) = _
    rw [addLineFromStack_eq A _ _ hstack]
  obtain ⟨mid1, hB⟩ : ∃ mid1,
      (appendClose A (str "]),") (str ": null" :: fc :: S2)).lines =
        (X ++ mid1) ++ [str "]),"] := by
    cases hm : mid with
    | nil =>
      have hll : endsCommaWs (lastLine A.lines) = false := by
        rw [hlines, hm, List.append_nil]; exact hX
      refine ⟨[], ?_⟩
      rw [appendClose_lines_noStrip1 A _ _ hll, hlines, hm]
    | cons m ms =>
      by_cases hco : endsCommaWs (lastLine A.lines) = true
      · refine ⟨modifyLast List.dropLast mid, ?_⟩
        rw [appendClose_lines_strip A _ _ hco (by decide), hlines,
          modifyLast_append List.dropLast X mid (by rw [hm]; simp)]
      · refine ⟨mid, ?_⟩
        rw [appendClose_lines_noStrip1 A _ _ (by simpa using hco), hlines]
  have hBstack : (appendClose A (str "]),") (str ": null" :: fc :: S2)).stack =
      str ": null" :: fc :: S2 := appendClose_stack _ _ _
  have e2 : popClosers 2 (appendClose A (str "]),") (str ": null" :: fc :: S2)) =
      popClosers 1 (appendClose (appendClose A (str "]),") (str ": null" :: fc :: S2))
        (str ": null") (fc :: S2)) := by
    show popClosers 1 (addLineFromStack _) = _
    rw [addLineFromStack_eq _ _ _ hBstack]
  have hBlast : endsCommaWs (lastLine (appendClose A (str "]),")
      (str ": null" :: fc :: S2)).lines) = true := by
    rw [hB, lastLine_concat]; decide
  have hC : (appendClose (appendClose A (str "]),") (str ": null" :: fc :: S2))
        (str ": null") (fc :: S2)).lines =
      ((X ++ mid1) ++ [str "])"]) ++ [str ": null"] := by
    rw [appendClose_lines_strip _ _ _ hBlast (by decide), hB, modifyLast_concat]
    have : List.dropLast (str "]),") = str "])" := by decide
    rw [this]
  have hCstack : (appendClose (appendClose A (str "]),") (str ": null" :: fc :: S2))
      (str ": null") (fc :: S2)).stack = fc :: S2 := appendClose_stack _ _ _
  have e3 : popClosers 1 (appendClose (appendClose A (str "]),")
      (str ": null" :: fc :: S2)) (str ": null") (fc :: S2)) =
      appendClose (appendClose (appendClose A (str "]),") (str ": null" :: fc :: S2))
        (str ": null") (fc :: S2)) fc S2 := by
    show popClosers 0 (addLineFromStack _) = _
    rw [addLineFromStack_eq _ _ _ hCstack]
    rfl
  have hClast : endsCommaWs (lastLine (appendClose (appendClose A (str "]),")
      (str ": null" :: fc :: S2)) (str ": null") (fc :: S2)).lines) = false := by
    rw [hC, lastLine_concat]; decide
  have hD : (appendClose (appendClose (appendClose A (str "]),")
        (str ": null" :: fc :: S2)) (str ": null") (fc :: S2)) fc S2).lines =
      (((X ++ mid1) ++ [str "])"]) ++ [str ": null"]) ++ [fc] := by
    rw [appendClose_lines_noStrip1 _ _ _ hClast, hC]
  refine ⟨mid1, ?_, ?_⟩
  · rw [e1, e2, e3, hD]
    simp
  · rw [e1, e2, e3, appendClose_stack]

theorem endsCommaWs_elemOpen (Z : Line) : endsCommaWs (Z ++ str ", [") = false := by
  have h1 : str ", [" = [',', ' ', '['] := rfl
  rw [h1, show Z ++ [',', ' ', '['] = (Z ++ [',', ' ']) ++ ['['] by simp,
    endsCommaWs_concat]
  simp [show isJsSpace '[' = false from by decide,
    show ('[' == ',') = false from by decide]

/-- C6: on an element carrying both a `for` and a `show` directive (whose
direct children carry no `for` directive of their own, so their emission is
balanced), the compiler emits the `for` opener, then the `show` opener, then
the element-creation opener `h(<tag>, <props>, [`, recurses into the children,
and then emits the closers in the order children-list-close (`])`, its
trailing comma stripped by the conditional closer landing after it), then the
`show` closer `: null`, then the `for` closer - so the loop is the outermost
construct, the conditional next, and the element innermost. -/
theorem c6_for_show_nesting (hs : Helpers) (st : CState) (t : Line)
    (a : List (Line × Line)) (cs : PNodeList) (fe se : Line)
    (hfor : (hs.splitAttributes a).directives.lookup (str "for") = some fe)
    (hshow : (hs.splitAttributes a).directives.lookup (str "show") = some se)
    (hnf : noTopFor hs cs) :
    ∃ mid,
      (addNode hs (.element t a cs) st).lines =
        modifyLast dropLast2 st.lines ++
          [(hs.formatForDirective fe).1,
           hs.addThisContext se ++ str " ?",
           str "h(" ++ hs.normalizeTagName t ++ str ", " ++
             hs.extractProps (hs.splitAttributes a).attrs
               (hs.splitAttributes a).bindings (hs.splitAttributes a).events ++
             str ", ["] ++
          mid ++ [str "])", str ": null", (hs.formatForDirective fe).2] ∧
      (addNode hs (.element t a cs) st).stack = modifyHead (List.drop 1) st.stack := by
  have hopen : addElementOpen hs st t a =
      ({ lines := ((modifyLast (fun l => l.dropLast.dropLast) st.lines ++
          [(hs.formatForDirective fe).1]) ++ [hs.addThisContext se ++ str " ?"]) ++
          [str "h(" ++ hs.normalizeTagName t ++ str ", " ++
            hs.extractProps (hs.splitAttributes a).attrs
              (hs.splitAttributes a).bindings (hs.splitAttributes a).events ++ str ", ["],
         stack := str "])," :: str ": null" :: (hs.formatForDirective fe).2 ::
           modifyHead (List.drop 1) st.stack,
         imports := addImport st.imports "h" }, 3) := by
    simp [addElementOpen, hfor, hshow]
  have h2 : (addElementOpen hs st t a).2 = 3 := by rw [hopen]
  have heq : addNode hs (.element t a cs) st =
      popClosers 3 (addNodes hs cs (addElementOpen hs st t a).1) := by
    rw [← h2]; simp [addNode]
  obtain ⟨hstkC, midC, hlinC⟩ := (addNodes_shape hs cs (addElementOpen hs st t a).1).2 hnf
  have hAstack : (addNodes hs cs (addElementOpen hs st t a).1).stack =
      str "])," :: str ": null" :: (hs.formatForDirective fe).2 ::
        modifyHead (List.drop 1) st.stack := by
    rw [hstkC, show (addElementOpen hs st t a).1.stack =
      str "])," :: str ": null" :: (hs.formatForDirective fe).2 ::
        modifyHead (List.drop 1) st.stack by rw [hopen]]
  have hPl : (addElementOpen hs st t a).1.lines =
      modifyLast (fun l => l.dropLast.dropLast) st.lines ++
        [(hs.formatForDirective fe).1,
         hs.addThisContext se ++ str " ?",
         str "h(" ++ hs.normalizeTagName t ++ str ", " ++
           hs.extractProps (hs.splitAttributes a).attrs
             (hs.splitAttributes a).bindings (hs.splitAttributes a).events ++
           str ", ["] := by
    rw [hopen]
    simp
  have hAlines : (addNodes hs cs (addElementOpen hs st t a).1).lines =
      (modifyLast (fun l => l.dropLast.dropLast) st.lines ++
        [(hs.formatForDirective fe).1,
         hs.addThisContext se ++ str " ?",
         str "h(" ++ hs.normalizeTagName t ++ str ", " ++
           hs.extractProps (hs.splitAttributes a).attrs
             (hs.splitAttributes a).bindings (hs.splitAttributes a).events ++
           str ", ["]) ++ midC := by
    rw [hlinC, hPl]
  have hX : endsCommaWs (lastLine (modifyLast (fun l => l.dropLast.dropLast) st.lines ++
      [(hs.formatForDirective fe).1,
       hs.addThisContext se ++ str " ?",
       str "h(" ++ hs.normalizeTagName t ++ str ", " ++
         hs.extractProps (hs.splitAttributes a).attrs
           (hs.splitAttributes a).bindings (hs.splitAttributes a).events ++
         str ", ["])) = false := by
    rw [show modifyLast (fun l => l.dropLast.dropLast) st.lines ++
        [(hs.formatForDirective fe).1,
         hs.addThisContext se ++ str " ?",
         str "h(" ++ hs.normalizeTagName t ++ str ", " ++
           hs.extractProps (hs.splitAttributes a).attrs
             (hs.splitAttributes a).bindings (hs.splitAttributes a).events ++
           str ", ["] =
        (modifyLast (fun l => l.dropLast.dropLast) st.lines ++
          [(hs.formatForDirective fe).1, hs.addThisContext se ++ str " ?"]) ++
        [str "h(" ++ hs.normalizeTagName t ++ str ", " ++
           hs.extractProps (hs.splitAttributes a).attrs
             (hs.splitAttributes a).bindings (hs.splitAttributes a).events ++
           str ", ["] by simp, lastLine_concat]
    exact endsCommaWs_elemOpen _
  obtain ⟨mid2, hlines3, hstack3⟩ := popClosers_three_spec
    (addNodes hs cs (addElementOpen hs st t a).1) _ midC
    ((hs.formatForDirective fe).2) (modifyHead (List.drop 1) st.stack)
    hAstack hAlines hX
  refine ⟨mid2, ?_, ?_⟩
  · rw [heq, hlines3]
    simp only [List.append_assoc]
    rfl
  · rw [heq, hstack3]

theorem c6_for_show_nesting_witness :
    ∃ mid,
      (addNode specHelpers forShowElement initialState).lines =
        modifyLast dropLast2 initialState.lines ++
          [(specHelpers.formatForDirective (str "item in items")).1,
           specHelpers.addThisContext (str "open") ++ str " ?",
           str "h(" ++ specHelpers.normalizeTagName (str "li") ++ str ", " ++
             specHelpers.extractProps
               (specHelpers.splitAttributes
                 [(str "for", str "item in items"), (str "show", str "open")]).attrs
               (specHelpers.splitAttributes
                 [(str "for", str "item in items"), (str "show", str "open")]).bindings
               (specHelpers.splitAttributes
                 [(str "for", str "item in items"), (str "show", str "open")]).events ++
             str ", ["] ++
          mid ++ [str "])", str ": null",
            (specHelpers.formatForDirective (str "item in items")).2] ∧
      (addNode specHelpers forShowElement initialState).stack =
        modifyHead (List.drop 1) initialState.stack :=
  c6_for_show_nesting specHelpers initialState (str "li")
    [(str "for", str "item in items"), (str "show", str "open")]
    (.cons (.text (str "x")) .nil) (str "item in items") (str "open")
    (by decide) (by decide) ⟨by decide, trivial⟩

/-- C7 counterexample: with the spec-modelled directive helpers, a forest of
two sibling elements that both carry a `for` directive compiles to program
text containing a comma followed only by whitespace before a closing token
(`), )` in the joined code): the second element's `slice(1)` rewrite empties a
pending closer, and once the emptied line is appended the loop closer's
trailing comma stands before the drained `)` with nothing but the join spaces
in between.  The strip in `#addLineFromStack` does not fire because the
emptied line does not start with a closing token. -/
theorem c7_trailing_separator_counterexample :
    hasSeam (codeOf (compile specHelpers twoForSiblings)) = true := by decide

theorem pairsOKb_concat : ∀ (L : List Line) (x : Line), pairsOKb L = true →
    (endsCommaWs (lastLine L) && startsWsClosing x) = false →
    pairsOKb (L ++ [x]) = true := by
  intro L
  induction L with
  | nil => intro x _ _; rfl
  | cons a t ih =>
    intro x hp hc
    cases t with
    | nil =>
      have hc2 : (endsCommaWs a && startsWsClosing x) = false := hc
      simp [pairsOKb, hc2]
    | cons b t2 =>
      have hp1 : (!(endsCommaWs a && startsWsClosing b)) = true := by
        simp only [pairsOKb, Bool.and_eq_true] at hp
        simp [hp.1]
      have hp2 : pairsOKb (b :: t2) = true := by
        simp only [pairsOKb, Bool.and_eq_true] at hp
        exact hp.2
      have hc2 : (endsCommaWs (lastLine (b :: t2)) && startsWsClosing x) = false := by
        rw [← lastLine_cons a (b :: t2) (by simp)]
        exact hc
      have hrec := ih x hp2 hc2
      simp only [List.cons_append] at hrec ⊢
      have hshape : pairsOKb (a :: b :: (t2 ++ [x])) =
          ((!(endsCommaWs a && startsWsClosing b)) && pairsOKb (b :: (t2 ++ [x]))) := rfl
      rw [hshape, hp1, hrec]
      rfl

theorem pairsOKb_push (L : List Line) (x : Line) (h : pairsOKb L = true)
    (hx : startsWsClosing x = false) : pairsOKb (L ++ [x]) = true :=
  pairsOKb_concat L x h (by rw [hx, Bool.and_false])

theorem pairsOKb_modifyLast (f : Line → Line)
    (hf : ∀ l, startsWsClosing (f l) = true → startsWsClosing l = true) :
    ∀ L, pairsOKb L = true → pairsOKb (modifyLast f L) = true := by
  intro L
  induction L with
  | nil => intro _; rfl
  | cons a t ih =>
    intro hp
    cases t with
    | nil => rfl
    | cons b t2 =>
      have hsplit : (!(endsCommaWs a && startsWsClosing b)) = true ∧
          pairsOKb (b :: t2) = true := by
        simpa only [pairsOKb, Bool.and_eq_true] using hp
      have hp1 : endsCommaWs a = false ∨ startsWsClosing b = false := by
        simpa using hsplit.1
      have hrec := ih hsplit.2
      cases t2 with
      | nil =>
        have hpair : (endsCommaWs a && startsWsClosing (f b)) = false := by
          cases hsb : startsWsClosing (f b) with
          | false => simp
          | true =>
            cases hea : endsCommaWs a with
            | false => simp
            | true =>
              rcases hp1 with h | h
              · rw [hea] at h; exact absurd h (by simp)
              · exact absurd (hf b hsb) (by simp [h])
        simp [modifyLast, pairsOKb, hpair]
      | cons c t3 =>
        have hshape : modifyLast f (a :: b :: c :: t3) =
            a :: b :: modifyLast f (c :: t3) := rfl
        rw [hshape]
        have hgoal : pairsOKb (a :: b :: modifyLast f (c :: t3)) =
            ((!(endsCommaWs a && startsWsClosing b)) &&
              pairsOKb (b :: modifyLast f (c :: t3))) := rfl
        rw [hgoal, hsplit.1]
        have hbm : pairsOKb (b :: modifyLast f (c :: t3)) = true := by
          have hr := hrec
          rw [show modifyLast f (b :: c :: t3) = b :: modifyLast f (c :: t3) from rfl] at hr
          exact hr
        rw [hbm]
        rfl

theorem allSuffixClean_cleanEnd (l : Line) (h : allSuffixClean l = true) :
    cleanEndB l = true := by
  cases l with
  | nil => rfl
  | cons c t =>
    simp only [allSuffixClean, Bool.and_eq_true] at h
    exact h.1

theorem allSuffixClean_drop1 (l : Line) (h : allSuffixClean l = true) :
    allSuffixClean (l.drop 1) = true := by
  cases l with
  | nil => rfl
  | cons c t =>
    simp only [allSuffixClean, Bool.and_eq_true] at h
    exact h.2

theorem cleanEnd_strip (l : Line) (h1 : cleanEndB l = true)
    (h2 : endsCommaWs l = true) : endsCommaWs l.dropLast = false := by
  simpa [cleanEndB, h2] using h1

theorem startsWsClosing_cons_false (c : Char) (l : Line)
    (h1 : isJsSpace c = false) (h2 : isClosing c = false) :
    startsWsClosing (c :: l) = false := by
  simp [startsWsClosing, List.dropWhile, h1, h2]

theorem cleanEndB_closeComma (Z : Line) : cleanEndB (Z ++ str "),") = true := by
  have h0 : str ")," = [')', ','] := rfl
  have h1 : Z ++ str "),"  = (Z ++ [')']) ++ [','] := by rw [h0]; simp
  rw [cleanEndB, h1, List.dropLast_concat, endsCommaWs_concat, endsCommaWs_concat]
  simp [show isJsSpace ',' = false from by decide,
    show isJsSpace ')' = false from by decide,
    show (')' == ',') = false from by decide]

theorem cleanEndB_elemOpen (Z : Line) : cleanEndB (Z ++ str ", [") = true := by
  simp [cleanEndB, endsCommaWs_elemOpen]

theorem stack_mangle_ok (S : List Line) (h : ∀ x ∈ S, allSuffixClean x = true) :
    ∀ x ∈ modifyHead (List.drop 1) S, allSuffixClean x = true := by
  cases S with
  | nil => intro x hx; simp [modifyHead] at hx
  | cons s0 srest =>
    intro x hx
    simp only [modifyHead] at hx
    rcases List.mem_cons.mp hx with hx | hx
    · rw [hx]; exact allSuffixClean_drop1 s0 (h s0 (List.mem_cons_self _ _))
    · exact h x (List.mem_cons_of_mem _ hx)

theorem appendClose_inv (st : CState) (e : Line) (rest : List Line)
    (hstk : st.stack = e :: rest) (hinv : InvC7 st) :
    InvC7 (appendClose st e rest) := by
  obtain ⟨hp, hcl, hsc⟩ := hinv
  have hse : allSuffixClean e = true :=
    hsc e (by rw [hstk]; exact List.mem_cons_self e rest)
  refine ⟨?_, ?_, ?_⟩
  · by_cases hc1 : endsCommaWs (lastLine st.lines) = true
    · by_cases hc2 : startsWsClosing e = true
      · rw [appendClose_lines_strip st e rest hc1 hc2]
        apply pairsOKb_concat
        · exact pairsOKb_modifyLast List.dropLast startsWsClosing_dropLast st.lines hp
        · have hne : st.lines ≠ [] := by
            intro hnil
            rw [hnil] at hc1
            exact absurd hc1 (by decide)
          rw [lastLine_modifyLast List.dropLast st.lines hne,
            cleanEnd_strip _ hcl hc1, Bool.false_and]
      · rw [appendClose_lines_noStrip2 st e rest (by simpa using hc2)]
        apply pairsOKb_concat _ _ hp
        rw [(by simpa using hc2 : startsWsClosing e = false), Bool.and_false]
    · rw [appendClose_lines_noStrip1 st e rest (by simpa using hc1)]
      apply pairsOKb_concat _ _ hp
      rw [(by simpa using hc1 : endsCommaWs (lastLine st.lines) = false), Bool.false_and]
  · have hlast : lastLine (appendClose st e rest).lines = e := by
      by_cases hc1 : endsCommaWs (lastLine st.lines) = true
      · by_cases hc2 : startsWsClosing e = true
        · rw [appendClose_lines_strip st e rest hc1 hc2, lastLine_concat]
        · rw [appendClose_lines_noStrip2 st e rest (by simpa using hc2), lastLine_concat]
      · rw [appendClose_lines_noStrip1 st e rest (by simpa using hc1), lastLine_concat]
    rw [hlast]
    exact allSuffixClean_cleanEnd e hse
  · intro x hx
    exact hsc x (by rw [hstk]; exact List.mem_cons_of_mem e hx)

theorem popClosers_inv : ∀ (n : Nat) (st : CState), InvC7 st →
    InvC7 (popClosers n st) := by
  intro n
  induction n with
  | zero => intro st h; exact h
  | succ k ih =>
    intro st h
    show InvC7 (popClosers k (addLineFromStack st))
    cases hstk : st.stack with
    | nil =>
      have hid : addLineFromStack st = st := by simp [addLineFromStack, hstk]
      rw [hid]
      exact ih st h
    | cons e rest =>
      rw [addLineFromStack_eq st e rest hstk]
      exact ih _ (appendClose_inv st e rest hstk h)

theorem drain_inv (st : CState) (h : InvC7 st) : InvC7 (drain st) :=
  popClosers_inv st.stack.length st h

theorem addText_inv (hs : Helpers) (st : CState) (r : Line) (hinv : InvC7 st) :
    InvC7 (addText hs st r) := by
  obtain ⟨hp, hcl, hsc⟩ := hinv
  by_cases ht : trimLine r = []
  · have hid : addText hs st r = st := by simp [addText, ht]
    rw [hid]
    exact ⟨hp, hcl, hsc⟩
  · have hT : addText hs st r =
        { lines := st.lines ++
            [str "hString(" ++ hs.interpolateVariables (trimLine r) ++ str "),"],
          stack := st.stack, imports := addImport st.imports "hString" } := by
      simp [addText, ht]
    rw [hT]
    refine ⟨?_, ?_, hsc⟩
    · apply pairsOKb_push _ _ hp
      rw [show str "hString(" ++ hs.interpolateVariables (trimLine r) ++ str "),"  =
        'h' :: (str "String(" ++ hs.interpolateVariables (trimLine r) ++ str "),")
        from rfl]
      exact startsWsClosing_cons_false 'h' _ (by decide) (by decide)
    · rw [lastLine_concat]
      exact cleanEndB_closeComma _

theorem addElementOpen_inv (hs : Helpers) (st : CState) (t : Line)
    (a : List (Line × Line))
    (hcf1 : ∀ x, startsWsClosing (hs.formatForDirective x).1 = false)
    (hcf2 : ∀ x, allSuffixClean (hs.formatForDirective x).2 = true)
    (hcf3 : ∀ x, startsWsClosing (hs.addThisContext x ++ str " ?") = false)
    (hinv : InvC7 st) :
    InvC7 (addElementOpen hs st t a).1 := by
  obtain ⟨hp, hcl, hsc⟩ := hinv
  have heo_start : startsWsClosing (str "h(" ++ hs.normalizeTagName t ++ str ", " ++
      hs.extractProps (hs.splitAttributes a).attrs (hs.splitAttributes a).bindings
        (hs.splitAttributes a).events ++ str ", [") = false := by
    rw [show str "h(" ++ hs.normalizeTagName t ++ str ", " ++
        hs.extractProps (hs.splitAttributes a).attrs (hs.splitAttributes a).bindings
          (hs.splitAttributes a).events ++ str ", ["  =
      'h' :: (str "(" ++ hs.normalizeTagName t ++ str ", " ++
        hs.extractProps (hs.splitAttributes a).attrs (hs.splitAttributes a).bindings
          (hs.splitAttributes a).events ++ str ", [") from rfl]
    exact startsWsClosing_cons_false 'h' _ (by decide) (by decide)
  have heo_clean : cleanEndB (str "h(" ++ hs.normalizeTagName t ++ str ", " ++
      hs.extractProps (hs.splitAttributes a).attrs (hs.splitAttributes a).bindings
        (hs.splitAttributes a).events ++ str ", [") = true :=
    cleanEndB_elemOpen _
  have hfDL : ∀ l : Line, startsWsClosing (l.dropLast.dropLast) = true →
      startsWsClosing l = true :=
    fun l h => startsWsClosing_dropLast l (startsWsClosing_dropLast l.dropLast h)
  cases hfor : (hs.splitAttributes a).directives.lookup (str "for") with
  | none =>
    cases hshow : (hs.splitAttributes a).directives.lookup (str "show") with
    | none =>
      rw [show (addElementOpen hs st t a).1 =
          { lines := st.lines ++
              [str "h(" ++ hs.normalizeTagName t ++ str ", " ++
                hs.extractProps (hs.splitAttributes a).attrs
                  (hs.splitAttributes a).bindings (hs.splitAttributes a).events ++
                str ", ["],
            stack := str "])," :: st.stack,
            imports := addImport st.imports "h" } from by
        simp [addElementOpen, hfor, hshow]]
      refine ⟨pairsOKb_push _ _ hp heo_start,
        by rw [lastLine_concat]; exact heo_clean, ?_⟩
      intro x hx
      rcases List.mem_cons.mp hx with hx | hx
      · rw [hx]; decide
      · exact hsc x hx
    | some se =>
      rw [show (addElementOpen hs st t a).1 =
          { lines := (st.lines ++ [hs.addThisContext se ++ str " ?"]) ++
              [str "h(" ++ hs.normalizeTagName t ++ str ", " ++
                hs.extractProps (hs.splitAttributes a).attrs
                  (hs.splitAttributes a).bindings (hs.splitAttributes a).events ++
                str ", ["],
            stack := str "])," :: str ": null" :: st.stack,
            imports := addImport st.imports "h" } from by
        simp [addElementOpen, hfor, hshow]]
      refine ⟨pairsOKb_push _ _ (pairsOKb_push _ _ hp (hcf3 se)) heo_start,
        by rw [lastLine_concat]; exact heo_clean, ?_⟩
      intro x hx
      rcases List.mem_cons.mp hx with hx | hx
      · rw [hx]; decide
      rcases List.mem_cons.mp hx with hx | hx
      · rw [hx]; decide
      · exact hsc x hx
  | some fe =>
    have hpM : pairsOKb (modifyLast (fun l => l.dropLast.dropLast) st.lines) = true :=
      pairsOKb_modifyLast (fun l => l.dropLast.dropLast) hfDL st.lines hp
    have hscM := stack_mangle_ok st.stack hsc
    cases hshow : (hs.splitAttributes a).directives.lookup (str "show") with
    | none =>
      rw [show (addElementOpen hs st t a).1 =
          { lines := (modifyLast (fun l => l.dropLast.dropLast) st.lines ++
              [(hs.formatForDirective fe).1]) ++
              [str "h(" ++ hs.normalizeTagName t ++ str ", " ++
                hs.extractProps (hs.splitAttributes a).attrs
                  (hs.splitAttributes a).bindings (hs.splitAttributes a).events ++
                str ", ["],
            stack := str "])," :: (hs.formatForDirective fe).2 ::
              modifyHead (List.drop 1) st.stack,
            imports := addImport st.imports "h" } from by
        simp [addElementOpen, hfor, hshow]]
      refine ⟨pairsOKb_push _ _ (pairsOKb_push _ _ hpM (hcf1 fe)) heo_start,
        by rw [lastLine_concat]; exact heo_clean, ?_⟩
      intro x hx
      rcases List.mem_cons.mp hx with hx | hx
      · rw [hx]; decide
      rcases List.mem_cons.mp hx with hx | hx
      · rw [hx]; exact hcf2 fe
      · exact hscM x hx
    | some se =>
      rw [show (addElementOpen hs st t a).1 =
          { lines := ((modifyLast (fun l => l.dropLast.dropLast) st.lines ++
              [(hs.formatForDirective fe).1]) ++ [hs.addThisContext se ++ str " ?"]) ++
              [str "h(" ++ hs.normalizeTagName t ++ str ", " ++
                hs.extractProps (hs.splitAttributes a).attrs
                  (hs.splitAttributes a).bindings (hs.splitAttributes a).events ++
                str ", ["],
            stack := str "])," :: str ": null" :: (hs.formatForDirective fe).2 ::
              modifyHead (List.drop 1) st.stack,
            imports := addImport st.imports "h" } from by
        simp [addElementOpen, hfor, hshow]]
      refine ⟨pairsOKb_push _ _ (pairsOKb_push _ _
          (pairsOKb_push _ _ hpM (hcf1 fe)) (hcf3 se)) heo_start,
        by rw [lastLine_concat]; exact heo_clean, ?_⟩
      intro x hx
      rcases List.mem_cons.mp hx with hx | hx
      · rw [hx]; decide
      rcases List.mem_cons.mp hx with hx | hx
      · rw [hx]; decide
      rcases List.mem_cons.mp hx with hx | hx
      · rw [hx]; exact hcf2 fe
      · exact hscM x hx

mutual

theorem addNode_inv (hs : Helpers)
    (hcf1 : ∀ x, startsWsClosing (hs.formatForDirective x).1 = false)
    (hcf2 : ∀ x, allSuffixClean (hs.formatForDirective x).2 = true)
    (hcf3 : ∀ x, startsWsClosing (hs.addThisContext x ++ str " ?") = false) :
    ∀ (n : PNode) (st : CState), InvC7 st → InvC7 (addNode hs n st)
  | .text r, st, hinv => by
    rw [show addNode hs (.text r) st = addText hs st r from by simp [addNode]]
    exact addText_inv hs st r hinv
  | .other, st, hinv => by
    rw [show addNode hs .other st = st from by simp [addNode]]
    exact hinv
  | .element t a cs, st, hinv => by
    rw [show addNode hs (.element t a cs) st =
        popClosers (addElementOpen hs st t a).2
          (addNodes hs cs (addElementOpen hs st t a).1) from by simp [addNode]]
    exact popClosers_inv _ _
      (addNodes_inv hs hcf1 hcf2 hcf3 cs _
        (addElementOpen_inv hs st t a hcf1 hcf2 hcf3 hinv))

theorem addNodes_inv (hs : Helpers)
    (hcf1 : ∀ x, startsWsClosing (hs.formatForDirective x).1 = false)
    (hcf2 : ∀ x, allSuffixClean (hs.formatForDirective x).2 = true)
    (hcf3 : ∀ x, startsWsClosing (hs.addThisContext x ++ str " ?") = false) :
    ∀ (l : PNodeList) (st : CState), InvC7 st → InvC7 (addNodes hs l st)
  | .nil, st, hinv => by
    rw [show addNodes hs .nil st = st from by simp [addNodes]]
    exact hinv
  | .cons n ns, st, hinv => by
    rw [show addNodes hs (.cons n ns) st = addNodes hs ns (addNode hs n st) from by
      simp [addNodes]]
    exact addNodes_inv hs hcf1 hcf2 hcf3 ns _ (addNode_inv hs hcf1 hcf2 hcf3 n st hinv)

end

/-- C7 (amended): the strip in `#addLineFromStack` keeps the emission buffer
free of adjacent comma-ending / closing-starting lines.  For every parsed
forest, provided the external directive helpers keep their contract (loop and
conditional openers do not start with a closing token; loop closers and all
their suffixes carry at most one trailing comma), no buffer line of the
returned program ends in a comma (after optional whitespace) while the next
buffer line starts with a closing token.  The stronger per-character claim on
the joined code fails only where the `for` rewrite has already emptied a
closer (see the counterexample). -/
theorem c7_no_adjacent_comma_closing (hs : Helpers) (ns : PNodeList)
    (hc : HelperContract hs) :
    pairsOKb (compile hs ns).lines = true := by
  obtain ⟨hcf1, hcf2, hcf3⟩ := hc
  by_cases hlen : 1 < lenPNL ns
  · rw [show compile hs ns = drain (addNodes hs ns wrapState) from by
      simp [compile, wrapState, hlen]]
    exact (drain_inv _ (addNodes_inv hs hcf1 hcf2 hcf3 ns wrapState
      ⟨by decide, by decide, by decide⟩)).1
  · rw [show compile hs ns = drain (addNodes hs ns initialState) from by
      simp [compile, hlen]]
    exact (drain_inv _ (addNodes_inv hs hcf1 hcf2 hcf3 ns initialState
      ⟨by decide, by decide, by decide⟩)).1

theorem helperContract_wHelpers : HelperContract wHelpers := by
  refine ⟨?_, ?_, ?_⟩
  · intro x
    rw [show (wHelpers.formatForDirective x).1 =
      '(' :: (x ++ str ").map((x) =>") from rfl]
    exact startsWsClosing_cons_false '(' _ (by decide) (by decide)
  · intro x
    rw [show (wHelpers.formatForDirective x).2 = str ")," from rfl]
    decide
  · intro x
    rw [show wHelpers.addThisContext x ++ str " ?" =
      't' :: (str "his." ++ x ++ str " ?") from rfl]
    exact startsWsClosing_cons_false 't' _ (by decide) (by decide)

theorem c7_no_adjacent_comma_closing_witness :
    HelperContract wHelpers ∧
    pairsOKb (compile wHelpers twoForSiblings).lines = true :=
  ⟨helperContract_wHelpers,
    c7_no_adjacent_comma_closing wHelpers twoForSiblings helperContract_wHelpers⟩

end FwkCompiler
